import Mathlib

/-!
Verification of the kindle-ai-export specification against a shallow
embedding of the repository's TypeScript sources.

Each section embeds one component:
* `deromanize` from `src/utils.ts`
* `parsePageNav` and `parseTocItems` from `src/extract-kindle-book.ts`
* the page-traversal loop of `main` in `src/extract-kindle-book.ts`
* the per-page transcription loop of `src/transcribe-book-content.ts`
* the chapter-stitching loops of `src/export-book-markdown.ts` and
  `src/export-book-pdf.ts`

JS numbers are modelled as `Nat` (indices, pages) and `Int` where the code
can produce negatives (`findIndex`), `NaN` as `Option.none`, and JS string
functions by explicit functions on `List Char`.
-/

/-! ## Roman numerals (`src/utils.ts:19-30`) -/

/-- Value of a single roman-numeral character, after JS `toUpperCase`;
`none` models an `undefined` lookup in the `numerals` table of `utils.ts`. -/
def romanCharVal (c : Char) : Option Nat :=
  match c.toUpper with
  | 'I' => some 1
  | 'V' => some 5
  | 'X' => some 10
  | 'L' => some 50
  | 'C' => some 100
  | 'D' => some 500
  | 'M' => some 1000
  | _ => none

/-- Embedding of the `while (roman.length)` loop of `deromanize`
(`src/utils.ts:19-30`): each character contributes `val * (-1 | 1)`, the sign
chosen by comparing with the value of the next character.  `none` models a
`NaN` result (in JS an `undefined` table lookup poisons the running sum). -/
def deromAux : List Char → Option Int
  | [] => some 0
  | c :: rest =>
    match romanCharVal c, deromAux rest with
    | some v, some n =>
      let sign : Int :=
        match rest.head? with
        | some d =>
          match romanCharVal d with
          | some w => if v < w then -1 else 1
          | none => 1
        | none => 1
      some ((v : Int) * sign + n)
    | _, _ => none

/-- Embedding of `deromanize` from `src/utils.ts`. -/
def deromanize (s : String) : Option Int :=
  deromAux s.data

/-- Sign contributed by a character of value `v` given the remaining
characters (the `val < numerals[roman[0]] ? -1 : 1` test). -/
def signFor (v : Nat) (l : List Char) : Int :=
  match l.head? with
  | some d =>
    match romanCharVal d with
    | some w => if v < w then -1 else 1
    | none => 1
  | none => 1

/-- Total variant of `deromAux` used for reasoning; agrees with `deromAux`
on lists of valid roman characters (`deromAux_eq_some`). -/
def deromVal : List Char → Int
  | [] => 0
  | c :: rest =>
    ((romanCharVal c).getD 0 : Int) * signFor ((romanCharVal c).getD 0) rest +
      deromVal rest

theorem deromVal_cons (c : Char) (l : List Char) :
    deromVal (c :: l) =
      ((romanCharVal c).getD 0 : Int) * signFor ((romanCharVal c).getD 0) l +
        deromVal l :=
  rfl

theorem signFor_cons (v : Nat) (d : Char) (l : List Char) :
    signFor v (d :: l) =
      match romanCharVal d with
      | some w => if v < w then (-1 : Int) else 1
      | none => 1 :=
  rfl

/-- Every character has an entry in the `numerals` table. -/
def deromValid (l : List Char) : Bool :=
  l.all (fun c => (romanCharVal c).isSome)

theorem deromAux_eq_some (l : List Char) (h : deromValid l = true) :
    deromAux l = some (deromVal l) := by
  induction l with
  | nil => rfl
  | cons c rest ih =>
    simp only [deromValid, List.all_cons, Bool.and_eq_true] at h
    obtain ⟨hc, hrest⟩ := h
    obtain ⟨v, hv⟩ := Option.isSome_iff_exists.mp hc
    simp only [deromAux, deromVal, signFor, ih (by simpa [deromValid] using hrest), hv,
      Option.getD_some]

/-- Boundary condition for splitting `deromVal` over an append: the value of
the last character on the left is at least the value of the first character
on the right (so its sign stays positive). -/
def lastHeadLE (xs ys : List Char) : Bool :=
  match xs.getLast?, ys.head? with
  | some c, some d =>
    match romanCharVal c, romanCharVal d with
    | some v, some w => w ≤ v
    | _, _ => true
  | _, _ => true

theorem deromVal_append (xs ys : List Char) (h : lastHeadLE xs ys = true) :
    deromVal (xs ++ ys) = deromVal xs + deromVal ys := by
  induction xs with
  | nil => simp [deromVal]
  | cons c rest ih =>
    cases rest with
    | nil =>
      have hsign : ((romanCharVal c).getD 0 : Int) *
          signFor ((romanCharVal c).getD 0) ys =
          ((romanCharVal c).getD 0 : Int) * signFor ((romanCharVal c).getD 0) [] := by
        cases ys with
        | nil => rfl
        | cons d ys2 =>
          simp only [lastHeadLE, List.getLast?_singleton, List.head?_cons] at h
          cases hc : romanCharVal c with
          | none => simp [hc]
          | some v =>
            cases hd : romanCharVal d with
            | none => simp [signFor_cons, hc, hd, signFor]
            | some w =>
              simp only [hc, hd, decide_eq_true_eq] at h
              have hvw : ¬ v < w := by omega
              simp [signFor_cons, hc, hd, hvw, signFor]
      rw [List.singleton_append, deromVal_cons, hsign]
      simp [deromVal, deromVal_cons]
    | cons c2 rest2 =>
      have h2 : lastHeadLE (c2 :: rest2) ys = true := by
        simpa [lastHeadLE, List.getLast?_cons_cons] using h
      rw [List.cons_append, deromVal_cons, deromVal_cons]
      rw [ih h2]
      have hsg : signFor ((romanCharVal c).getD 0) ((c2 :: rest2) ++ ys) =
          signFor ((romanCharVal c).getD 0) (c2 :: rest2) := by
        rw [List.cons_append, signFor_cons, signFor_cons]
      rw [hsg]
      ring

/-! Spec-side definition: the standard subtractive roman numeral for a
number (the specification's "well-formed roman numeral", I=1, V=5, X=10,
L=50, C=100, D=500, M=1000 with subtractive pairs). -/

def romanUnits : Nat → List Char
  | 1 => ['I']
  | 2 => ['I', 'I']
  | 3 => ['I', 'I', 'I']
  | 4 => ['I', 'V']
  | 5 => ['V']
  | 6 => ['V', 'I']
  | 7 => ['V', 'I', 'I']
  | 8 => ['V', 'I', 'I', 'I']
  | 9 => ['I', 'X']
  | _ => []

def romanTens : Nat → List Char
  | 1 => ['X']
  | 2 => ['X', 'X']
  | 3 => ['X', 'X', 'X']
  | 4 => ['X', 'L']
  | 5 => ['L']
  | 6 => ['L', 'X']
  | 7 => ['L', 'X', 'X']
  | 8 => ['L', 'X', 'X', 'X']
  | 9 => ['X', 'C']
  | _ => []

def romanHundreds : Nat → List Char
  | 1 => ['C']
  | 2 => ['C', 'C']
  | 3 => ['C', 'C', 'C']
  | 4 => ['C', 'D']
  | 5 => ['D']
  | 6 => ['D', 'C']
  | 7 => ['D', 'C', 'C']
  | 8 => ['D', 'C', 'C', 'C']
  | 9 => ['C', 'M']
  | _ => []

def romanThousands : Nat → List Char
  | 1 => ['M']
  | 2 => ['M', 'M']
  | 3 => ['M', 'M', 'M']
  | _ => []

/-- The standard subtractive roman numeral for `n` (meaningful for
`1 ≤ n ≤ 3999`), as a list of characters. -/
def standardRomanList (n : Nat) : List Char :=
  romanThousands (n / 1000) ++
    (romanHundreds (n % 1000 / 100) ++
      (romanTens (n % 100 / 10) ++ romanUnits (n % 10)))

def standardRoman (n : Nat) : String :=
  ⟨standardRomanList n⟩

theorem lastHeadLE_right (a b c : List Char) (hab : lastHeadLE a b = true)
    (hac : b = [] → lastHeadLE a c = true) : lastHeadLE a (b ++ c) = true := by
  cases b with
  | nil => simpa using hac rfl
  | cons x xs => simpa [lastHeadLE, List.head?_append] using hab

theorem romanUnits_val : ∀ u : Nat, u < 10 → deromVal (romanUnits u) = (u : Int) := by
  decide

theorem romanTens_val : ∀ t : Nat, t < 10 → deromVal (romanTens t) = 10 * (t : Int) := by
  decide

theorem romanHundreds_val :
    ∀ h : Nat, h < 10 → deromVal (romanHundreds h) = 100 * (h : Int) := by
  decide

theorem romanThousands_val :
    ∀ k : Nat, k < 4 → deromVal (romanThousands k) = 1000 * (k : Int) := by
  decide

theorem romanUnits_valid : ∀ u : Nat, u < 10 → deromValid (romanUnits u) = true := by
  decide

theorem romanTens_valid : ∀ t : Nat, t < 10 → deromValid (romanTens t) = true := by
  decide

theorem romanHundreds_valid :
    ∀ h : Nat, h < 10 → deromValid (romanHundreds h) = true := by
  decide

theorem romanThousands_valid :
    ∀ k : Nat, k < 4 → deromValid (romanThousands k) = true := by
  decide

theorem roman_b_tens_units :
    ∀ t : Nat, t < 10 → ∀ u : Nat, u < 10 → lastHeadLE (romanTens t) (romanUnits u) = true := by
  decide

theorem roman_b_hundreds_tens :
    ∀ h : Nat, h < 10 → ∀ t : Nat, t < 10 →
      lastHeadLE (romanHundreds h) (romanTens t) = true := by
  decide

theorem roman_b_hundreds_units :
    ∀ h : Nat, h < 10 → ∀ u : Nat, u < 10 →
      lastHeadLE (romanHundreds h) (romanUnits u) = true := by
  decide

theorem roman_b_thousands_hundreds :
    ∀ k : Nat, k < 4 → ∀ h : Nat, h < 10 →
      lastHeadLE (romanThousands k) (romanHundreds h) = true := by
  decide

theorem roman_b_thousands_tens :
    ∀ k : Nat, k < 4 → ∀ t : Nat, t < 10 →
      lastHeadLE (romanThousands k) (romanTens t) = true := by
  decide

theorem roman_b_thousands_units :
    ∀ k : Nat, k < 4 → ∀ u : Nat, u < 10 →
      lastHeadLE (romanThousands k) (romanUnits u) = true := by
  decide

theorem deromValid_append (a b : List Char) (ha : deromValid a = true)
    (hb : deromValid b = true) : deromValid (a ++ b) = true := by
  simp only [deromValid, List.all_append, Bool.and_eq_true] at *
  exact ⟨ha, hb⟩

theorem standardRomanList_valid (n : Nat) (hn : n ≤ 3999) :
    deromValid (standardRomanList n) = true := by
  have hk : n / 1000 < 4 := by omega
  have hh : n % 1000 / 100 < 10 := by omega
  have ht : n % 100 / 10 < 10 := by omega
  have hu : n % 10 < 10 := by omega
  exact deromValid_append _ _ (romanThousands_valid _ hk)
    (deromValid_append _ _ (romanHundreds_valid _ hh)
      (deromValid_append _ _ (romanTens_valid _ ht) (romanUnits_valid _ hu)))

theorem romanTens_empty : ∀ t : Nat, t < 10 → (romanTens t = [] ↔ t = 0) := by
  decide

theorem romanHundreds_empty : ∀ h : Nat, h < 10 → (romanHundreds h = [] ↔ h = 0) := by
  decide

theorem standardRomanList_val (n : Nat) (hn : n ≤ 3999) :
    deromVal (standardRomanList n) = (n : Int) := by
  have hk : n / 1000 < 4 := by omega
  have hh : n % 1000 / 100 < 10 := by omega
  have ht : n % 100 / 10 < 10 := by omega
  have hu : n % 10 < 10 := by omega
  have b1 : lastHeadLE (romanTens (n % 100 / 10)) (romanUnits (n % 10)) = true :=
    roman_b_tens_units _ ht _ hu
  have b2 : lastHeadLE (romanHundreds (n % 1000 / 100))
      (romanTens (n % 100 / 10) ++ romanUnits (n % 10)) = true :=
    lastHeadLE_right _ _ _ (roman_b_hundreds_tens _ hh _ ht)
      (fun _ => roman_b_hundreds_units _ hh _ hu)
  have b3 : lastHeadLE (romanThousands (n / 1000))
      (romanHundreds (n % 1000 / 100) ++
        (romanTens (n % 100 / 10) ++ romanUnits (n % 10))) = true := by
    refine lastHeadLE_right _ _ _ (roman_b_thousands_hundreds _ hk _ hh) (fun hE => ?_)
    exact lastHeadLE_right _ _ _ (roman_b_thousands_tens _ hk _ ht)
      (fun _ => roman_b_thousands_units _ hk _ hu)
  unfold standardRomanList
  rw [deromVal_append _ _ b3, deromVal_append _ _ b2, deromVal_append _ _ b1,
    romanThousands_val _ hk, romanHundreds_val _ hh, romanTens_val _ ht,
    romanUnits_val _ hu]
  have : n = 1000 * (n / 1000) + 100 * (n % 1000 / 100) + 10 * (n % 100 / 10) + n % 10 := by
    omega
  push_cast
  omega

theorem deromanize_standardRoman (n : Nat) (_h1 : 1 ≤ n) (h2 : n ≤ 3999) :
    deromanize (standardRoman n) = some (n : Int) := by
  unfold deromanize standardRoman
  rw [show (String.mk (standardRomanList n)).data = standardRomanList n from rfl,
    deromAux_eq_some _ (standardRomanList_valid n h2), standardRomanList_val n h2]

/-- C9: `deromanize` implements standard subtractive roman-numeral decoding
with I=1, V=5, X=10, L=50, C=100, D=500, M=1000: every well-formed
(standard subtractive) roman numeral decodes to its value, and in
particular XIV decodes to 14, IX to 9 and III to 3. -/
theorem C9_deromanize_subtractive :
    (∀ n : Nat, 1 ≤ n → n ≤ 3999 → deromanize (standardRoman n) = some (n : Int)) ∧
      deromanize "XIV" = some 14 ∧ deromanize "IX" = some 9 ∧
      deromanize "III" = some 3 :=
  ⟨deromanize_standardRoman, by decide, by decide, by decide⟩

/-- Witness for C9 at a concrete input. -/
theorem C9_deromanize_subtractive_witness :
    (1 ≤ 1977 ∧ 1977 ≤ 3999) ∧ deromanize (standardRoman 1977) = some 1977 :=
  ⟨⟨by decide, by decide⟩, C9_deromanize_subtractive.1 1977 (by decide) (by decide)⟩

/-! ## Footer parsing: `parsePageNav` (`src/extract-kindle-book.ts:1006-1049`)

The three footer regexes `/page\s+(\d+)\s+of\s+(\d+)/i`,
`/location\s+(\d+)\s+of\s+(\d+)/i` and `/page\s+([cdilmvx]+)\s+of\s+(\d+)/i`
are embedded as deterministic scanners.  In each pattern adjacent tokens have
disjoint character classes (letter / whitespace / digit / roman letter), so
greedy matching without backtracking coincides with the JS regex semantics,
and the unanchored `String.match` is the scan over all start positions
(`searchO`). -/

/-- ASCII case folding used by the regex `i` flag: upper-case letters map to
their lower-case code, everything else to its own code. -/
def lowN (c : Char) : Nat :=
  if 65 ≤ c.toNat ∧ c.toNat ≤ 90 then c.toNat + 32 else c.toNat

/-- Case-insensitive character comparison (`i` flag). -/
def lowEq (a b : Char) : Bool :=
  lowN a == lowN b

/-- JS `\s`: whitespace character class. -/
def isJsWs (c : Char) : Bool :=
  let n := c.toNat
  n == 32 || n == 9 || n == 10 || n == 11 || n == 12 || n == 13 ||
    n == 160 || n == 0x1680 || (0x2000 ≤ n && n ≤ 0x200a) ||
    n == 0x2028 || n == 0x2029 || n == 0x202f || n == 0x205f ||
    n == 0x3000 || n == 0xfeff

/-- JS `\d`: the digits 0-9. -/
def jsDigit (c : Char) : Bool :=
  48 ≤ c.toNat && c.toNat ≤ 57

/-- The regex class `[cdilmvx]` under the `i` flag (ASCII). -/
def isRomanLetter (c : Char) : Bool :=
  let n := lowN c
  n == 99 || n == 100 || n == 105 || n == 108 || n == 109 || n == 118 || n == 120

/-- Decimal digit character for `n < 10`. -/
def digitChar (n : Nat) : Char :=
  Char.ofNat (48 + n)

/-- Decimal rendering, by fuel-based structural recursion (so that it
reduces in the kernel); `natDigits` supplies enough fuel. -/
def natDigitsGo : Nat → Nat → List Char
  | 0, _ => []
  | fuel + 1, n =>
    if n < 10 then [digitChar n]
    else natDigitsGo fuel (n / 10) ++ [digitChar (n % 10)]

/-- Decimal rendering of a natural number (no leading zeros). -/
def natDigits (n : Nat) : List Char :=
  natDigitsGo (n + 1) n

theorem natDigitsGo_congr :
    ∀ fuel1 fuel2 n : Nat, n < fuel1 → n < fuel2 →
      natDigitsGo fuel1 n = natDigitsGo fuel2 n := by
  intro fuel1
  induction fuel1 with
  | zero => intro fuel2 n h1; omega
  | succ f1 ih =>
    intro fuel2 n h1 h2
    cases fuel2 with
    | zero => omega
    | succ f2 =>
      simp only [natDigitsGo]
      split
      · rfl
      · rename_i hge
        have hd : n / 10 < n := Nat.div_lt_self (by omega) (by omega)
        rw [ih f2 (n / 10) (by omega) (by omega)]

theorem natDigits_eq (n : Nat) :
    natDigits n =
      if n < 10 then [digitChar n]
      else natDigits (n / 10) ++ [digitChar (n % 10)] := by
  show natDigitsGo (n + 1) n = _
  simp only [natDigitsGo]
  split
  · rfl
  · rename_i hge
    have hd : n / 10 < n := Nat.div_lt_self (by omega) (by omega)
    rw [natDigitsGo_congr n (n / 10 + 1) (n / 10) (by omega) (by omega)]
    rfl

/-- JS `Number.parseInt` on a string of decimal digits. -/
def digitsToNat (l : List Char) : Nat :=
  l.foldl (fun a c => 10 * a + (c.toNat - 48)) 0

/-- Case-insensitive literal matcher: consumes `pat` from the input,
returning the rest. -/
def litCI : List Char → List Char → Option (List Char)
  | [], l => some l
  | _ :: _, [] => none
  | p :: ps, c :: cs => if lowEq p c then litCI ps cs else none

/-- Greedy `f+`: consumes a non-empty maximal run of characters satisfying
`f`, returning the run and the rest. -/
def munch1 (f : Char → Bool) (l : List Char) : Option (List Char × List Char) :=
  let a := l.takeWhile f
  if a.isEmpty then none else some (a, l.dropWhile f)

/-- Unanchored regex search: try a match at every start position, leftmost
first (JS `String.match`). -/
def searchO {α : Type} (m : List Char → Option α) : List Char → Option α
  | [] => m []
  | c :: cs =>
    match m (c :: cs) with
    | some r => some r
    | none => searchO m cs

/-- Tail of the three footer patterns: `\s+of\s+(\d+)` after the first
capture group; returns the parsed final capture. -/
def matchOfDigits (l : List Char) : Option Nat :=
  match munch1 isJsWs l with
  | none => none
  | some (_, r4) =>
    match litCI ['o', 'f'] r4 with
    | none => none
    | some r5 =>
      match munch1 isJsWs r5 with
      | none => none
      | some (_, r6) =>
        match munch1 jsDigit r6 with
        | none => none
        | some (d2, _) => some (digitsToNat d2)

/-- Match of `/page\s+(\d+)\s+of\s+(\d+)/i` at one position, returning the
two parsed capture groups. -/
def matchPageOfDigits (l : List Char) : Option (Nat × Nat) :=
  match litCI ['p', 'a', 'g', 'e'] l with
  | none => none
  | some r1 =>
    match munch1 isJsWs r1 with
    | none => none
    | some (_, r2) =>
      match munch1 jsDigit r2 with
      | none => none
      | some (d1, r3) =>
        match matchOfDigits r3 with
        | none => none
        | some t => some (digitsToNat d1, t)

/-- Match of `/location\s+(\d+)\s+of\s+(\d+)/i` at one position. -/
def matchLocationDigits (l : List Char) : Option (Nat × Nat) :=
  match litCI ['l', 'o', 'c', 'a', 't', 'i', 'o', 'n'] l with
  | none => none
  | some r1 =>
    match munch1 isJsWs r1 with
    | none => none
    | some (_, r2) =>
      match munch1 jsDigit r2 with
      | none => none
      | some (d1, r3) =>
        match matchOfDigits r3 with
        | none => none
        | some t => some (digitsToNat d1, t)

/-- Match of `/page\s+([cdilmvx]+)\s+of\s+(\d+)/i` at one position; the
first capture is kept as characters (the code feeds it to `deromanize`). -/
def matchPageRoman (l : List Char) : Option (List Char × Nat) :=
  match litCI ['p', 'a', 'g', 'e'] l with
  | none => none
  | some r1 =>
    match munch1 isJsWs r1 with
    | none => none
    | some (_, r2) =>
      match munch1 isRomanLetter r2 with
      | none => none
      | some (rm, r3) =>
        match matchOfDigits r3 with
        | none => none
        | some t => some (rm, t)

/-- Footer parse result (`PageNav` in `extract-kindle-book.ts`): at most one
of `page`/`location` is set; `location` is an `Int` because it is produced
by `deromanize`. -/
structure PageNav where
  page : Option Nat := none
  location : Option Int := none
  total : Nat
deriving DecidableEq, Repr

/-- Embedding of `parsePageNav` (`src/extract-kindle-book.ts:1006-1049`):
three notations tried in order; a `NaN` from `deromanize` yields
`undefined` (`none`). -/
def parsePageNav (s : String) : Option PageNav :=
  match searchO matchPageOfDigits s.data with
  | some (p, t) => some { page := some p, total := t }
  | none =>
    match searchO matchLocationDigits s.data with
    | some (loc, t) => some { location := some (loc : Int), total := t }
    | none =>
      match searchO matchPageRoman s.data with
      | some (rm, t) =>
        match deromAux rm with
        | some v => some { location := some v, total := t }
        | none => none
      | none => none

/-! ### Auxiliary lemmas for the footer matchers -/

theorem charEqOfToNat (c d : Char) (h : c.toNat = d.toNat) : c = d :=
  Char.eq_of_val_eq (UInt32.ext h)

theorem digitChar_toNat : ∀ n : Nat, n < 10 → (digitChar n).toNat = 48 + n := by
  decide

theorem natDigits_ne_nil (n : Nat) : natDigits n ≠ [] := by
  rw [natDigits_eq]
  split
  · simp
  · simp

theorem natDigits_all_digit (n : Nat) : (natDigits n).all jsDigit = true := by
  induction n using Nat.strong_induction_on with
  | _ n ih =>
    rw [natDigits_eq]
    split
    · rename_i h
      have := digitChar_toNat n h
      simp [jsDigit, this]
      omega
    · rename_i h
      have h10 : n % 10 < 10 := by omega
      have := digitChar_toNat (n % 10) h10
      simp only [List.all_append, Bool.and_eq_true]
      refine ⟨ih (n / 10) (Nat.div_lt_self (by omega) (by omega)), ?_⟩
      simp [jsDigit, this]
      omega

theorem digitsToNat_append_singleton (a : List Char) (d : Char) :
    digitsToNat (a ++ [d]) = 10 * digitsToNat a + (d.toNat - 48) := by
  simp [digitsToNat, List.foldl_append]

theorem digitsToNat_natDigits (n : Nat) : digitsToNat (natDigits n) = n := by
  induction n using Nat.strong_induction_on with
  | _ n ih =>
    rw [natDigits_eq]
    split
    · rename_i h
      have := digitChar_toNat n h
      simp [digitsToNat, this]
    · rename_i h
      rw [digitsToNat_append_singleton, ih (n / 10) (Nat.div_lt_self (by omega) (by omega)),
        digitChar_toNat (n % 10) (by omega)]
      omega

theorem ws_of_digit_false (c : Char) (h : jsDigit c = true) : isJsWs c = false := by
  simp only [jsDigit, Bool.and_eq_true, decide_eq_true_eq] at h
  simp only [isJsWs]
  simp only [Bool.or_eq_false_iff, beq_eq_false_iff_ne, ne_eq, Bool.and_eq_false_iff,
    decide_eq_false_iff_not, not_le]
  omega

theorem romanLetter_codes (c : Char) (h : isRomanLetter c = true) :
    c.toNat = 67 ∨ c.toNat = 68 ∨ c.toNat = 73 ∨ c.toNat = 76 ∨ c.toNat = 77 ∨
      c.toNat = 86 ∨ c.toNat = 88 ∨ c.toNat = 99 ∨ c.toNat = 100 ∨ c.toNat = 105 ∨
      c.toNat = 108 ∨ c.toNat = 109 ∨ c.toNat = 118 ∨ c.toNat = 120 := by
  simp only [isRomanLetter, lowN, Bool.or_eq_true, beq_iff_eq] at h
  split at h <;> omega

theorem romanLetter_cases (c : Char) (h : isRomanLetter c = true) :
    c ∈ ['C', 'D', 'I', 'L', 'M', 'V', 'X', 'c', 'd', 'i', 'l', 'm', 'v', 'x'] := by
  rcases romanLetter_codes c h with h | h | h | h | h | h | h | h | h | h | h | h | h | h
  all_goals first
    | (rw [charEqOfToNat c 'C' (by rw [h]; decide)]; decide)
    | (rw [charEqOfToNat c 'D' (by rw [h]; decide)]; decide)
    | (rw [charEqOfToNat c 'I' (by rw [h]; decide)]; decide)
    | (rw [charEqOfToNat c 'L' (by rw [h]; decide)]; decide)
    | (rw [charEqOfToNat c 'M' (by rw [h]; decide)]; decide)
    | (rw [charEqOfToNat c 'V' (by rw [h]; decide)]; decide)
    | (rw [charEqOfToNat c 'X' (by rw [h]; decide)]; decide)
    | (rw [charEqOfToNat c 'c' (by rw [h]; decide)]; decide)
    | (rw [charEqOfToNat c 'd' (by rw [h]; decide)]; decide)
    | (rw [charEqOfToNat c 'i' (by rw [h]; decide)]; decide)
    | (rw [charEqOfToNat c 'l' (by rw [h]; decide)]; decide)
    | (rw [charEqOfToNat c 'm' (by rw [h]; decide)]; decide)
    | (rw [charEqOfToNat c 'v' (by rw [h]; decide)]; decide)
    | (rw [charEqOfToNat c 'x' (by rw [h]; decide)]; decide)

theorem romanCharVal_isSome_of_letter (c : Char) (h : isRomanLetter c = true) :
    (romanCharVal c).isSome = true := by
  have := romanLetter_cases c h
  fin_cases this <;> decide

theorem deromValid_of_letters (l : List Char) (h : l.all isRomanLetter = true) :
    deromValid l = true := by
  simp only [deromValid, List.all_eq_true] at *
  exact fun c hc => romanCharVal_isSome_of_letter c (h c hc)

theorem ws_of_romanLetter_false (c : Char) (h : isRomanLetter c = true) :
    isJsWs c = false := by
  have := romanLetter_cases c h
  fin_cases this <;> decide

theorem digit_of_romanLetter_false (c : Char) (h : isRomanLetter c = true) :
    jsDigit c = false := by
  have := romanLetter_cases c h
  fin_cases this <;> decide

theorem romanLetter_of_digit_false (c : Char) (h : jsDigit c = true) :
    isRomanLetter c = false := by
  simp only [jsDigit, Bool.and_eq_true, decide_eq_true_eq] at h
  simp only [isRomanLetter, lowN, Bool.or_eq_false_iff, beq_eq_false_iff_ne, ne_eq]
  split <;> omega

theorem lowEq_refl (c : Char) : lowEq c c = true := by
  simp [lowEq]

theorem litCI_refl (pat rest : List Char) : litCI pat (pat ++ rest) = some rest := by
  induction pat with
  | nil => rfl
  | cons p ps ih => simp [litCI, lowEq_refl, ih]

theorem takeWhile_append_exact (f : Char → Bool) (xs ys : List Char)
    (hx : xs.all f = true)
    (hy : match ys with | [] => True | c :: _ => f c = false) :
    (xs ++ ys).takeWhile f = xs ∧ (xs ++ ys).dropWhile f = ys := by
  induction xs with
  | nil =>
    cases ys with
    | nil => simp
    | cons c cs =>
      simp only [List.nil_append]
      simp only at hy
      constructor
      · simp [List.takeWhile_cons, hy]
      · simp [List.dropWhile_cons, hy]
  | cons x xs ih =>
    simp only [List.all_cons, Bool.and_eq_true] at hx
    obtain ⟨hfx, hall⟩ := hx
    obtain ⟨h1, h2⟩ := ih hall
    constructor
    · simp [List.takeWhile_cons, hfx, h1]
    · simp [List.dropWhile_cons, hfx, h2]

theorem munch1_exact (f : Char → Bool) (xs ys : List Char) (hne : xs ≠ [])
    (hx : xs.all f = true)
    (hy : match ys with | [] => True | c :: _ => f c = false) :
    munch1 f (xs ++ ys) = some (xs, ys) := by
  obtain ⟨h1, h2⟩ := takeWhile_append_exact f xs ys hx hy
  simp [munch1, h1, h2, List.isEmpty_iff, hne]

theorem munch1_none (f : Char → Bool) (l : List Char)
    (h : match l with | [] => True | c :: _ => f c = false) :
    munch1 f l = none := by
  cases l with
  | nil => rfl
  | cons c cs =>
    simp only at h
    simp [munch1, List.takeWhile_cons, h]

theorem munch1_all (f : Char → Bool) (xs : List Char) (hne : xs ≠ [])
    (hx : xs.all f = true) : munch1 f xs = some (xs, []) := by
  have := munch1_exact f xs [] hne hx (by simp)
  simpa using this

/-- Canonical footer in notation (a): `page N of M`. -/
def pageFooter (p t : Nat) : String :=
  ⟨['p', 'a', 'g', 'e'] ++
    ([' '] ++ (natDigits p ++ ([' '] ++ (['o', 'f'] ++ ([' '] ++ natDigits t)))))⟩

/-- Canonical footer in notation (b): `location N of M`. -/
def locationFooter (n t : Nat) : String :=
  ⟨['l', 'o', 'c', 'a', 't', 'i', 'o', 'n'] ++
    ([' '] ++ (natDigits n ++ ([' '] ++ (['o', 'f'] ++ ([' '] ++ natDigits t)))))⟩

/-- Canonical footer in notation (c): `page <roman> of M`, for an arbitrary
non-empty run `rm` of roman-letter characters. -/
def romanFooterList (rm : List Char) (t : Nat) : String :=
  ⟨['p', 'a', 'g', 'e'] ++
    ([' '] ++ (rm ++ ([' '] ++ (['o', 'f'] ++ ([' '] ++ natDigits t)))))⟩

/-- Canonical footer in notation (c) for the standard numeral of `n`. -/
def romanFooter (n t : Nat) : String :=
  romanFooterList (standardRomanList n) t

theorem head_not_ws_of_digits (ds : List Char) (rest : List Char)
    (hne : ds ≠ []) (ha : ds.all jsDigit = true) :
    match ds ++ rest with | [] => True | c :: _ => isJsWs c = false := by
  cases ds with
  | nil => exact absurd rfl hne
  | cons c cs =>
    simp only [List.cons_append]
    simp only [List.all_cons, Bool.and_eq_true] at ha
    exact ws_of_digit_false c ha.1


theorem matchOfDigits_eval (ds2 : List Char) (h2 : ds2 ≠ [])
    (h2a : ds2.all jsDigit = true) :
    matchOfDigits ([' '] ++ (['o', 'f'] ++ ([' '] ++ ds2))) = some (digitsToNat ds2) := by
  have e4 : munch1 isJsWs ([' '] ++ (['o', 'f'] ++ ([' '] ++ ds2))) =
      some ([' '], ['o', 'f'] ++ ([' '] ++ ds2)) :=
    munch1_exact _ _ _ (by simp) (by decide) (by show isJsWs 'o' = false; decide)
  have e6 : munch1 isJsWs ([' '] ++ ds2) = some ([' '], ds2) :=
    munch1_exact _ _ _ (by simp) (by decide)
      (by
        cases ds2 with
        | nil => trivial
        | cons c cs =>
          simp only [List.all_cons, Bool.and_eq_true] at h2a
          exact ws_of_digit_false c h2a.1)
  have e7 : munch1 jsDigit ds2 = some (ds2, []) := munch1_all _ _ h2 h2a
  simp only [matchOfDigits, e4, litCI_refl, e6, e7]

theorem matchPageOfDigits_eval (ds1 ds2 : List Char) (h1 : ds1 ≠ [])
    (h1a : ds1.all jsDigit = true) (h2 : ds2 ≠ []) (h2a : ds2.all jsDigit = true) :
    matchPageOfDigits
      (['p', 'a', 'g', 'e'] ++
        ([' '] ++ (ds1 ++ ([' '] ++ (['o', 'f'] ++ ([' '] ++ ds2)))))) =
      some (digitsToNat ds1, digitsToNat ds2) := by
  have e2 : munch1 isJsWs ([' '] ++ (ds1 ++ ([' '] ++ (['o', 'f'] ++ ([' '] ++ ds2))))) =
      some ([' '], ds1 ++ ([' '] ++ (['o', 'f'] ++ ([' '] ++ ds2)))) :=
    munch1_exact _ _ _ (by simp) (by decide) (head_not_ws_of_digits ds1 _ h1 h1a)
  have e3 : munch1 jsDigit (ds1 ++ ([' '] ++ (['o', 'f'] ++ ([' '] ++ ds2)))) =
      some (ds1, [' '] ++ (['o', 'f'] ++ ([' '] ++ ds2))) :=
    munch1_exact _ _ _ h1 h1a (by show jsDigit ' ' = false; decide)
  simp only [matchPageOfDigits, litCI_refl, e2, e3, matchOfDigits_eval ds2 h2 h2a]

theorem matchLocationDigits_eval (ds1 ds2 : List Char) (h1 : ds1 ≠ [])
    (h1a : ds1.all jsDigit = true) (h2 : ds2 ≠ []) (h2a : ds2.all jsDigit = true) :
    matchLocationDigits
      (['l', 'o', 'c', 'a', 't', 'i', 'o', 'n'] ++
        ([' '] ++ (ds1 ++ ([' '] ++ (['o', 'f'] ++ ([' '] ++ ds2)))))) =
      some (digitsToNat ds1, digitsToNat ds2) := by
  have e2 : munch1 isJsWs ([' '] ++ (ds1 ++ ([' '] ++ (['o', 'f'] ++ ([' '] ++ ds2))))) =
      some ([' '], ds1 ++ ([' '] ++ (['o', 'f'] ++ ([' '] ++ ds2)))) :=
    munch1_exact _ _ _ (by simp) (by decide) (head_not_ws_of_digits ds1 _ h1 h1a)
  have e3 : munch1 jsDigit (ds1 ++ ([' '] ++ (['o', 'f'] ++ ([' '] ++ ds2)))) =
      some (ds1, [' '] ++ (['o', 'f'] ++ ([' '] ++ ds2))) :=
    munch1_exact _ _ _ h1 h1a (by show jsDigit ' ' = false; decide)
  simp only [matchLocationDigits, litCI_refl, e2, e3, matchOfDigits_eval ds2 h2 h2a]

theorem head_not_ws_of_letters (rm : List Char) (rest : List Char)
    (hne : rm ≠ []) (ha : rm.all isRomanLetter = true) :
    match rm ++ rest with | [] => True | c :: _ => isJsWs c = false := by
  cases rm with
  | nil => exact absurd rfl hne
  | cons c cs =>
    simp only [List.cons_append]
    simp only [List.all_cons, Bool.and_eq_true] at ha
    exact ws_of_romanLetter_false c ha.1

theorem matchPageRoman_eval (rm ds2 : List Char) (h1 : rm ≠ [])
    (h1a : rm.all isRomanLetter = true) (h2 : ds2 ≠ []) (h2a : ds2.all jsDigit = true) :
    matchPageRoman
      (['p', 'a', 'g', 'e'] ++
        ([' '] ++ (rm ++ ([' '] ++ (['o', 'f'] ++ ([' '] ++ ds2)))))) =
      some (rm, digitsToNat ds2) := by
  have e2 : munch1 isJsWs ([' '] ++ (rm ++ ([' '] ++ (['o', 'f'] ++ ([' '] ++ ds2))))) =
      some ([' '], rm ++ ([' '] ++ (['o', 'f'] ++ ([' '] ++ ds2)))) :=
    munch1_exact _ _ _ (by simp) (by decide) (head_not_ws_of_letters rm _ h1 h1a)
  have e3 : munch1 isRomanLetter (rm ++ ([' '] ++ (['o', 'f'] ++ ([' '] ++ ds2)))) =
      some (rm, [' '] ++ (['o', 'f'] ++ ([' '] ++ ds2))) :=
    munch1_exact _ _ _ h1 h1a (by show isRomanLetter ' ' = false; decide)
  simp only [matchPageRoman, litCI_refl, e2, e3, matchOfDigits_eval ds2 h2 h2a]

/-! ### Search lemmas: where the unanchored scan succeeds or fails -/

theorem searchO_of_match_some {α : Type} (m : List Char → Option α) (l : List Char)
    (r : α) (hm : m l = some r) : searchO m l = some r := by
  cases l with
  | nil => simpa [searchO] using hm
  | cons c cs => simp [searchO, hm]

theorem searchO_none_cons {α : Type} (m : List Char → Option α) (c : Char)
    (cs : List Char) (hm : m (c :: cs) = none) (ht : searchO m cs = none) :
    searchO m (c :: cs) = none := by
  simp [searchO, hm, ht]

theorem lowEq_p_digit_false (c : Char) (h : jsDigit c = true) : lowEq 'p' c = false := by
  have hp : lowN 'p' = 112 := rfl
  simp only [jsDigit, Bool.and_eq_true, decide_eq_true_eq] at h
  simp only [lowEq, hp, beq_eq_false_iff_ne, ne_eq]
  simp only [lowN]
  split <;> omega

theorem lowEq_p_roman_false (c : Char) (h : isRomanLetter c = true) :
    lowEq 'p' c = false := by
  have hp : lowN 'p' = 112 := rfl
  simp only [isRomanLetter, Bool.or_eq_true, beq_iff_eq] at h
  simp only [lowEq, hp, beq_eq_false_iff_ne, ne_eq]
  omega

theorem matchPageOfDigits_none_head (l : List Char)
    (h : match l with | [] => True | c :: _ => lowEq 'p' c = false) :
    matchPageOfDigits l = none := by
  cases l with
  | nil => rfl
  | cons c cs =>
    simp only at h
    simp [matchPageOfDigits, litCI, h]

theorem matchPageRoman_none_head (l : List Char)
    (h : match l with | [] => True | c :: _ => lowEq 'p' c = false) :
    matchPageRoman l = none := by
  cases l with
  | nil => rfl
  | cons c cs =>
    simp only at h
    simp [matchPageRoman, litCI, h]

theorem searchA_none (l : List Char) (h : ∀ c ∈ l, lowEq 'p' c = false) :
    searchO matchPageOfDigits l = none := by
  induction l with
  | nil => rfl
  | cons c cs ih =>
    refine searchO_none_cons _ _ _ (matchPageOfDigits_none_head _ ?_) (ih ?_)
    · exact h c (List.mem_cons_self _ _)
    · exact fun d hd => h d (List.mem_cons_of_mem c hd)

theorem searchRoman_none (l : List Char) (h : ∀ c ∈ l, lowEq 'p' c = false) :
    searchO matchPageRoman l = none := by
  induction l with
  | nil => rfl
  | cons c cs ih =>
    refine searchO_none_cons _ _ _ (matchPageRoman_none_head _ ?_) (ih ?_)
    · exact h c (List.mem_cons_self _ _)
    · exact fun d hd => h d (List.mem_cons_of_mem c hd)

/-- No position in the list starts with `l` followed by `o`
(case-insensitively), so `/location .../i` cannot match anywhere. -/
def noLocStart : List Char → Bool
  | a :: b :: rest => !(lowEq 'l' a && lowEq 'o' b) && noLocStart (b :: rest)
  | _ => true

theorem matchLocationDigits_none_head (l : List Char)
    (h : match l with
      | [] => True
      | [_] => True
      | a :: b :: _ => (lowEq 'l' a && lowEq 'o' b) = false) :
    matchLocationDigits l = none := by
  cases l with
  | nil => rfl
  | cons a rest =>
    cases rest with
    | nil =>
      cases ha : lowEq 'l' a <;> simp [matchLocationDigits, litCI, ha]
    | cons b rest2 =>
      simp only at h
      rcases Bool.and_eq_false_iff.mp h with ha | hb
      · simp [matchLocationDigits, litCI, ha]
      · cases ha : lowEq 'l' a <;> simp [matchLocationDigits, litCI, ha, hb]

theorem searchB_none (l : List Char) (h : noLocStart l = true) :
    searchO matchLocationDigits l = none := by
  induction l with
  | nil => rfl
  | cons a rest ih =>
    cases rest with
    | nil =>
      refine searchO_none_cons _ _ _ (matchLocationDigits_none_head _ trivial) rfl
    | cons b rest2 =>
      simp only [noLocStart, Bool.and_eq_true, Bool.not_eq_eq_eq_not, Bool.not_true] at h
      obtain ⟨h1, h2⟩ := h
      refine searchO_none_cons _ _ _ (matchLocationDigits_none_head _ ?_) (ih ?_)
      · simpa using h1
      · simpa [noLocStart] using h2

theorem noLocStart_append (xs ys : List Char) (hx : noLocStart xs = true)
    (hy : noLocStart ys = true)
    (hb : match xs.getLast?, ys.head? with
      | some a, some b => (lowEq 'l' a && lowEq 'o' b) = false
      | _, _ => True) :
    noLocStart (xs ++ ys) = true := by
  induction xs with
  | nil => simpa
  | cons a rest ih =>
    cases rest with
    | nil =>
      cases ys with
      | nil => simpa
      | cons b ys2 =>
        simp only [List.getLast?_singleton, List.head?_cons] at hb
        simp only [List.singleton_append, noLocStart, Bool.and_eq_true,
          Bool.not_eq_eq_eq_not, Bool.not_true]
        exact ⟨by simpa using hb, hy⟩
    | cons a2 rest2 =>
      simp only [noLocStart, Bool.and_eq_true, Bool.not_eq_eq_eq_not, Bool.not_true] at hx
      obtain ⟨h1, h2⟩ := hx
      have hb2 : match (a2 :: rest2).getLast?, ys.head? with
          | some a, some b => (lowEq 'l' a && lowEq 'o' b) = false
          | _, _ => True := by
        simpa [List.getLast?_cons_cons] using hb
      have := ih h2 hb2
      simp only [List.cons_append] at this ⊢
      simp only [noLocStart, Bool.and_eq_true, Bool.not_eq_eq_eq_not, Bool.not_true]
      constructor
      · simpa using h1
      · simpa [List.cons_append] using this

theorem noLocStart_of_noL (l : List Char) (h : ∀ c ∈ l, lowEq 'l' c = false) :
    noLocStart l = true := by
  induction l with
  | nil => rfl
  | cons a rest ih =>
    cases rest with
    | nil => rfl
    | cons b rest2 =>
      simp only [noLocStart, Bool.and_eq_true, Bool.not_eq_eq_eq_not, Bool.not_true]
      constructor
      · simp [h a (List.mem_cons_self _ _)]
      · exact ih (fun d hd => h d (List.mem_cons_of_mem a hd))

theorem noLocStart_of_noO (l : List Char) (h : ∀ c ∈ l, lowEq 'o' c = false) :
    noLocStart l = true := by
  induction l with
  | nil => rfl
  | cons a rest ih =>
    cases rest with
    | nil => rfl
    | cons b rest2 =>
      simp only [noLocStart, Bool.and_eq_true, Bool.not_eq_eq_eq_not, Bool.not_true]
      constructor
      · simp [h b (List.mem_cons_of_mem a (List.mem_cons_self _ _))]
      · exact ih (fun d hd => h d (List.mem_cons_of_mem a hd))

theorem lowEq_l_digit_false (c : Char) (h : jsDigit c = true) : lowEq 'l' c = false := by
  have hp : lowN 'l' = 108 := rfl
  simp only [jsDigit, Bool.and_eq_true, decide_eq_true_eq] at h
  simp only [lowEq, hp, beq_eq_false_iff_ne, ne_eq]
  simp only [lowN]
  split <;> omega

theorem lowEq_o_digit_false (c : Char) (h : jsDigit c = true) : lowEq 'o' c = false := by
  have hp : lowN 'o' = 111 := rfl
  simp only [jsDigit, Bool.and_eq_true, decide_eq_true_eq] at h
  simp only [lowEq, hp, beq_eq_false_iff_ne, ne_eq]
  simp only [lowN]
  split <;> omega

theorem lowEq_o_roman_false (c : Char) (h : isRomanLetter c = true) :
    lowEq 'o' c = false := by
  have hp : lowN 'o' = 111 := rfl
  simp only [isRomanLetter, Bool.or_eq_true, beq_iff_eq] at h
  simp only [lowEq, hp, beq_eq_false_iff_ne, ne_eq]
  omega

/-! ### `parsePageNav` on the three canonical notations -/

theorem parsePageNav_pageFooter (p t : Nat) :
    parsePageNav (pageFooter p t) = some { page := some p, total := t } := by
  have hA : searchO matchPageOfDigits (pageFooter p t).data =
      some (digitsToNat (natDigits p), digitsToNat (natDigits t)) :=
    searchO_of_match_some _ _ _
      (matchPageOfDigits_eval _ _ (natDigits_ne_nil p) (natDigits_all_digit p)
        (natDigits_ne_nil t) (natDigits_all_digit t))
  simp only [parsePageNav, hA, digitsToNat_natDigits]

theorem forall_mem_append_intro {P : Char → Prop} {a b : List Char}
    (ha : ∀ c ∈ a, P c) (hb : ∀ c ∈ b, P c) : ∀ c ∈ a ++ b, P c := by
  intro c hc
  rcases List.mem_append.mp hc with h | h
  · exact ha c h
  · exact hb c h

theorem noP_digits (m : Nat) : ∀ c ∈ natDigits m, lowEq 'p' c = false :=
  fun c hm => lowEq_p_digit_false c (List.all_eq_true.mp (natDigits_all_digit m) c hm)

theorem noP_locationFooter (n t : Nat) :
    ∀ c ∈ (locationFooter n t).data, lowEq 'p' c = false := by
  show ∀ c ∈ ['l', 'o', 'c', 'a', 't', 'i', 'o', 'n'] ++
      ([' '] ++ (natDigits n ++ ([' '] ++ (['o', 'f'] ++ ([' '] ++ natDigits t))))), _
  refine forall_mem_append_intro (by decide) (forall_mem_append_intro (by decide)
    (forall_mem_append_intro (noP_digits n) (forall_mem_append_intro (by decide)
      (forall_mem_append_intro (by decide)
        (forall_mem_append_intro (by decide) (noP_digits t))))))

theorem parsePageNav_locationFooter (n t : Nat) :
    parsePageNav (locationFooter n t) = some { location := some (n : Int), total := t } := by
  have hA : searchO matchPageOfDigits (locationFooter n t).data = none :=
    searchA_none _ (noP_locationFooter n t)
  have hB : searchO matchLocationDigits (locationFooter n t).data =
      some (digitsToNat (natDigits n), digitsToNat (natDigits t)) :=
    searchO_of_match_some _ _ _
      (matchLocationDigits_eval _ _ (natDigits_ne_nil n) (natDigits_all_digit n)
        (natDigits_ne_nil t) (natDigits_all_digit t))
  simp only [parsePageNav, hA, hB, digitsToNat_natDigits]

theorem noP_roman (rm : List Char) (hall : rm.all isRomanLetter = true) :
    ∀ c ∈ rm, lowEq 'p' c = false :=
  fun c hm => lowEq_p_roman_false c (List.all_eq_true.mp hall c hm)

theorem matchA_romanFooter_none (rm : List Char) (t : Nat) (hne : rm ≠ [])
    (hall : rm.all isRomanLetter = true) :
    matchPageOfDigits
      (['p', 'a', 'g', 'e'] ++
        ([' '] ++ (rm ++ ([' '] ++ (['o', 'f'] ++ ([' '] ++ natDigits t)))))) = none := by
  have e2 : munch1 isJsWs
      ([' '] ++ (rm ++ ([' '] ++ (['o', 'f'] ++ ([' '] ++ natDigits t))))) =
      some ([' '], rm ++ ([' '] ++ (['o', 'f'] ++ ([' '] ++ natDigits t)))) :=
    munch1_exact _ _ _ (by simp) (by decide) (head_not_ws_of_letters rm _ hne hall)
  have e3 : munch1 jsDigit (rm ++ ([' '] ++ (['o', 'f'] ++ ([' '] ++ natDigits t)))) =
      none := by
    refine munch1_none _ _ ?_
    cases rm with
    | nil => exact absurd rfl hne
    | cons c cs =>
      simp only [List.cons_append]
      simp only [List.all_cons, Bool.and_eq_true] at hall
      exact digit_of_romanLetter_false c hall.1
  simp only [matchPageOfDigits, litCI_refl, e2, e3]

theorem searchA_romanFooter_none (rm : List Char) (t : Nat) (hne : rm ≠ [])
    (hall : rm.all isRomanLetter = true) :
    searchO matchPageOfDigits (romanFooterList rm t).data = none := by
  have htail : searchO matchPageOfDigits
      (['a', 'g', 'e'] ++ ([' '] ++ (rm ++ ([' '] ++ (['o', 'f'] ++
        ([' '] ++ natDigits t)))))) = none := by
    refine searchA_none _ ?_
    refine forall_mem_append_intro (by decide) (forall_mem_append_intro (by decide)
      (forall_mem_append_intro (noP_roman rm hall) (forall_mem_append_intro (by decide)
        (forall_mem_append_intro (by decide)
          (forall_mem_append_intro (by decide) (noP_digits t))))))
  show searchO matchPageOfDigits
      ('p' :: (['a', 'g', 'e'] ++ ([' '] ++ (rm ++ ([' '] ++ (['o', 'f'] ++
        ([' '] ++ natDigits t))))))) = none
  exact searchO_none_cons _ _ _ (matchA_romanFooter_none rm t hne hall) htail

theorem boundary_first_not_l (xs ys : List Char)
    (hx : ∀ a, xs.getLast? = some a → lowEq 'l' a = false) :
    match xs.getLast?, ys.head? with
    | some a, some b => (lowEq 'l' a && lowEq 'o' b) = false
    | _, _ => True := by
  cases hxl : xs.getLast? with
  | none => trivial
  | some a =>
    cases ys.head? with
    | none => trivial
    | some b => simp [hx a hxl]

theorem boundary_second_not_o (xs ys : List Char)
    (hy : ∀ b, ys.head? = some b → lowEq 'o' b = false) :
    match xs.getLast?, ys.head? with
    | some a, some b => (lowEq 'l' a && lowEq 'o' b) = false
    | _, _ => True := by
  cases xs.getLast? with
  | none => trivial
  | some a =>
    cases hyh : ys.head? with
    | none => trivial
    | some b => simp [hy b hyh]

theorem searchB_romanFooter_none (rm : List Char) (t : Nat)
    (hall : rm.all isRomanLetter = true) :
    searchO matchLocationDigits (romanFooterList rm t).data = none := by
  have hrm : noLocStart rm = true :=
    noLocStart_of_noO rm
      (fun c hm => lowEq_o_roman_false c (List.all_eq_true.mp hall c hm))
  have hds : noLocStart (natDigits t) = true :=
    noLocStart_of_noL (natDigits t)
      (fun c hm =>
        lowEq_l_digit_false c (List.all_eq_true.mp (natDigits_all_digit t) c hm))
  refine searchB_none _ ?_
  show noLocStart (['p', 'a', 'g', 'e'] ++ ([' '] ++ (rm ++ ([' '] ++ (['o', 'f'] ++
    ([' '] ++ natDigits t)))))) = true
  refine noLocStart_append _ _ (by decide) ?_
    (boundary_first_not_l _ _ (fun a ha => by
      have : 'e' = a := by simpa using ha
      rw [← this]; decide))
  refine noLocStart_append _ _ (by decide) ?_
    (boundary_first_not_l _ _ (fun a ha => by
      have : ' ' = a := by simpa using ha
      rw [← this]; decide))
  refine noLocStart_append _ _ hrm ?_
    (boundary_second_not_o _ _ (fun b hb => by
      have : ' ' = b := by simpa using hb
      rw [← this]; decide))
  refine noLocStart_append _ _ (by decide) ?_
    (boundary_first_not_l _ _ (fun a ha => by
      have : ' ' = a := by simpa using ha
      rw [← this]; decide))
  refine noLocStart_append _ _ (by decide) ?_
    (boundary_first_not_l _ _ (fun a ha => by
      have : 'f' = a := by simpa using ha
      rw [← this]; decide))
  refine noLocStart_append _ _ (by decide) hds
    (boundary_first_not_l _ _ (fun a ha => by
      have : ' ' = a := by simpa using ha
      rw [← this]; decide))

theorem parsePageNav_romanFooterList (rm : List Char) (t : Nat) (hne : rm ≠ [])
    (hall : rm.all isRomanLetter = true) :
    parsePageNav (romanFooterList rm t) =
      some { location := some (deromVal rm), total := t } := by
  have hA := searchA_romanFooter_none rm t hne hall
  have hB := searchB_romanFooter_none rm t hall
  have hC : searchO matchPageRoman (romanFooterList rm t).data =
      some (rm, digitsToNat (natDigits t)) :=
    searchO_of_match_some _ _ _
      (matchPageRoman_eval rm _ hne hall (natDigits_ne_nil t) (natDigits_all_digit t))
  have hderom : deromAux rm = some (deromVal rm) :=
    deromAux_eq_some rm (deromValid_of_letters rm hall)
  simp only [parsePageNav, hA, hB, hC, hderom, digitsToNat_natDigits]

theorem standardRomanList_ne_nil (n : Nat) (h1 : 1 ≤ n) (h2 : n ≤ 3999) :
    standardRomanList n ≠ [] := by
  have hk : n / 1000 < 4 := by omega
  have hh : n % 1000 / 100 < 10 := by omega
  have ht : n % 100 / 10 < 10 := by omega
  have hu : n % 10 < 10 := by omega
  unfold standardRomanList
  intro hemp
  simp only [List.append_eq_nil] at hemp
  obtain ⟨e1, e2, e3, e4⟩ := hemp
  have z1 : n / 1000 = 0 := by
    by_contra hz
    interval_cases k : n / 1000 <;> simp_all [romanThousands]
  have z2 : n % 1000 / 100 = 0 := by
    by_contra hz
    interval_cases k : n % 1000 / 100 <;> simp_all [romanHundreds]
  have z3 : n % 100 / 10 = 0 := by
    by_contra hz
    interval_cases k : n % 100 / 10 <;> simp_all [romanTens]
  have z4 : n % 10 = 0 := by
    by_contra hz
    interval_cases k : n % 10 <;> simp_all [romanUnits]
  omega

theorem standardRomanList_all_letters (n : Nat) (h2 : n ≤ 3999) :
    (standardRomanList n).all isRomanLetter = true := by
  have hk : n / 1000 < 4 := by omega
  have hh : n % 1000 / 100 < 10 := by omega
  have ht : n % 100 / 10 < 10 := by omega
  have hu : n % 10 < 10 := by omega
  unfold standardRomanList
  simp only [List.all_append, Bool.and_eq_true]
  refine ⟨?_, ?_, ?_, ?_⟩
  · interval_cases k : n / 1000 <;> decide
  · interval_cases k : n % 1000 / 100 <;> decide
  · interval_cases k : n % 100 / 10 <;> decide
  · interval_cases k : n % 10 <;> decide

theorem parsePageNav_romanFooter (n t : Nat) (h1 : 1 ≤ n) (h2 : n ≤ 3999) :
    parsePageNav (romanFooter n t) = some { location := some (n : Int), total := t } := by
  rw [romanFooter, parsePageNav_romanFooterList _ _ (standardRomanList_ne_nil n h1 h2)
    (standardRomanList_all_letters n h2), standardRomanList_val n h2]

theorem parsePageNav_no_match (s : String)
    (hA : searchO matchPageOfDigits s.data = none)
    (hB : searchO matchLocationDigits s.data = none)
    (hC : match searchO matchPageRoman s.data with
      | none => True
      | some (rm, _) => deromAux rm = none) :
    parsePageNav s = none := by
  unfold parsePageNav
  rw [hA, hB]
  cases hc : searchO matchPageRoman s.data with
  | none => rfl
  | some v =>
    obtain ⟨rm, t⟩ := v
    rw [hc] at hC
    simp only at hC
    simp [hC]

/-- C4: the Location Parser tries the three footer notations in order —
`page N of M`, `location N of M`, `page <roman> of M` with subtractive
roman decoding — returning exactly the encoded values, and returns no
match (`none`) for strings matching none of the notations or whose parse
yields `NaN`. -/
theorem C4_parsePageNav_notations :
    (∀ p t : Nat, parsePageNav (pageFooter p t) = some { page := some p, total := t }) ∧
      (∀ n t : Nat,
        parsePageNav (locationFooter n t) =
          some { location := some (n : Int), total := t }) ∧
      (∀ n t : Nat, 1 ≤ n → n ≤ 3999 →
        parsePageNav (romanFooter n t) =
          some { location := some (n : Int), total := t }) ∧
      (∀ s : String, searchO matchPageOfDigits s.data = none →
        searchO matchLocationDigits s.data = none →
        (match searchO matchPageRoman s.data with
          | none => True
          | some (rm, _) => deromAux rm = none) →
        parsePageNav s = none) :=
  ⟨parsePageNav_pageFooter, parsePageNav_locationFooter,
    fun n t h1 h2 => parsePageNav_romanFooter n t h1 h2, parsePageNav_no_match⟩

/-- Witness for C4 at concrete inputs: `page 12 of 34`, `location 5 of 9`,
`page XIV of 20` and the unmatched string `hello`. -/
theorem C4_parsePageNav_notations_witness :
    parsePageNav (pageFooter 12 34) = some { page := some 12, total := 34 } ∧
      parsePageNav (locationFooter 5 9) = some { location := some 5, total := 9 } ∧
      (1 ≤ 14 ∧ 14 ≤ 3999 ∧
        parsePageNav (romanFooter 14 20) = some { location := some 14, total := 20 }) ∧
      parsePageNav "hello" = none :=
  ⟨C4_parsePageNav_notations.1 12 34,
    C4_parsePageNav_notations.2.1 5 9,
    ⟨by decide, by decide, C4_parsePageNav_notations.2.2.1 14 20 (by decide) (by decide)⟩,
    C4_parsePageNav_notations.2.2.2 "hello" (by decide) (by decide)
      (by show True; trivial)⟩

/-! ## TOC boundary analysis: `parseTocItems`
(`src/extract-kindle-book.ts:1051-1087`) -/

/-- TOC entry as captured during TOC traversal (`title` plus the footer
sample fields of `PageNav`). -/
structure TocItemX where
  title : String
  page : Option Nat := none
  location : Option Int := none
  total : Nat
deriving DecidableEq, Repr

/-- Case-insensitive whole-string equality (`/^pat$/i` without the `m`
flag: `^`/`$` anchor to the whole string). -/
def eqCI : List Char → List Char → Bool
  | [], [] => true
  | p :: ps, c :: cs => lowEq p c && eqCI ps cs
  | _, _ => false

/-- Case-insensitive anchored test `/^pat/i`. -/
def startsCI (pat s : List Char) : Bool :=
  (litCI pat s).isSome

/-- Case-insensitive anchored test `/pat$/i`. -/
def endsCI (pat s : List Char) : Bool :=
  startsCI pat.reverse s.reverse

/-- Case-insensitive unanchored test `/pat/i`. -/
def hasCI (pat s : List Char) : Bool :=
  (searchO (litCI pat) s).isSome

/-- The curated back-matter label patterns of `parseTocItems`
(`src/extract-kindle-book.ts:1066-1078`), in source order. -/
def isBackMatterTitle (title : String) : Bool :=
  let s := title.data
  hasCI "acknowledgements".data s ||
    eqCI "discover more".data s ||
    eqCI "extras".data s ||
    hasCI "about the author".data s ||
    hasCI "meet the author".data s ||
    startsCI "also by ".data s ||
    eqCI "copyright".data s ||
    endsCI " teaser".data s ||
    endsCI " preview".data s ||
    startsCI "excerpt from".data s ||
    eqCI "cast of characters".data s ||
    eqCI "timeline".data s ||
    startsCI "other titles".data s

/-- Predicate of the `afterLastPageTocItem` search (without the
`item === firstPageTocItem` identity exclusion, handled by index):
a resolvable page, `page / total ≥ 0.9` (modelled exactly on rationals),
and a back-matter label. -/
def tocPredicate (item : TocItemX) : Bool :=
  match item.page with
  | none => false
  | some p => (9 * item.total ≤ 10 * p) && isBackMatterTitle item.title

/-- Result of `parseTocItems`. -/
structure ParsedToc where
  firstPageTocItem : TocItemX
  afterLastPageTocItem : Option TocItemX
deriving DecidableEq, Repr

/-- Embedding of `parseTocItems` (`src/extract-kindle-book.ts:1051-1087`).
`none` models the thrown assertion when no entry has a resolvable page.
JS object identity (`item === firstPageTocItem`) is modelled by list
position. -/
def parseTocItems (items : List TocItemX) : Option ParsedToc :=
  match items.enum.find? (fun p => p.2.page.isSome) with
  | none => none
  | some (i0, first) =>
    some
      { firstPageTocItem := first
        afterLastPageTocItem :=
          (items.enum.find? (fun p => (p.1 != i0) && tocPredicate p.2)).map (·.2) }

theorem enumFrom_find?_spec {α : Type} (f : Nat × α → Bool) :
    ∀ (l : List α) (n j : Nat) (x : α),
      (List.enumFrom n l).find? f = some (j, x) →
      n ≤ j ∧ l.get? (j - n) = some x ∧ f (j, x) = true ∧
        ∀ k, n ≤ k → k < j → ∀ y, l.get? (k - n) = some y → f (k, y) = false := by
  intro l
  induction l with
  | nil => intro n j x h; simp [List.enumFrom] at h
  | cons a l ih =>
    intro n j x h
    simp only [List.enumFrom] at h
    rw [List.find?_cons] at h
    split at h
    · rename_i hfa
      obtain ⟨h1, h2⟩ := Prod.mk.injEq _ _ _ _ ▸ Option.some.injEq _ _ ▸ h
      refine ⟨by omega, ?_, ?_, ?_⟩
      · subst h1; simp [h2]
      · subst h1; subst h2; exact hfa
      · intro k hk1 hk2 y hy
        subst h1
        omega
    · rename_i hfa
      obtain ⟨hj, hget, hfx, hmin⟩ := ih (n + 1) j x h
      refine ⟨by omega, ?_, hfx, ?_⟩
      · have : j - n = (j - (n + 1)) + 1 := by omega
        rw [this]
        simpa using hget
      · intro k hk1 hk2 y hy
        rcases Nat.eq_or_lt_of_le hk1 with heq | hlt
        · subst heq
          simp only [Nat.sub_self] at hy
          simp only [List.get?_cons_zero, Option.some.injEq] at hy
          subst hy
          exact hfa
        · have hk : k - n = (k - (n + 1)) + 1 := by omega
          rw [hk] at hy
          simp only [List.get?_cons_succ] at hy
          exact hmin k (by omega) hk2 y hy

theorem snd_mem_of_mem_enumFrom {α : Type} :
    ∀ (l : List α) (n : Nat) (p : Nat × α), p ∈ List.enumFrom n l → p.2 ∈ l := by
  intro l
  induction l with
  | nil => intro n p h; simp [List.enumFrom] at h
  | cons a l ih =>
    intro n p h
    simp only [List.enumFrom, List.mem_cons] at h
    rcases h with h | h
    · subst h; simp
    · exact List.mem_cons_of_mem a (ih (n + 1) p h)

theorem tocPredicate_false_of_title (x : TocItemX)
    (h : isBackMatterTitle x.title = false) : tocPredicate x = false := by
  unfold tocPredicate
  cases x.page with
  | none => rfl
  | some p => simp [h]

/-- C3 counterexample: a TOC entry labeled `Newsletter` at 95% of the book
satisfies the claim's threshold (`page/total ≥ 0.9`, even `≥ 0.95`) and is
in the claim's curated pattern list, yet `parseTocItems` resolves no
`firstPostContentEntry` — the code has no newsletter pattern (nor
`excerpt:` / `other books` / `other works`). -/
theorem C3_parseTocItems_counterexample :
    (20 * 95 ≥ 19 * 100 ∧ 9 * 100 ≤ 10 * 95) ∧
      parseTocItems
          [{ title := "Intro", page := some 1, total := 100 },
            { title := "Newsletter", page := some 95, total := 100 }] =
        some
          { firstPageTocItem := { title := "Intro", page := some 1, total := 100 },
            afterLastPageTocItem := none } :=
  ⟨by decide, by decide⟩

/-- C3 (amended): `firstPostContentEntry` is the first entry in document
order, distinct from and after `firstContentEntry`, whose `page/total ≥ 0.9`
and whose label matches the code's thirteen back-matter patterns
(acknowledgements, discover more, extras, about/meet the author,
"also by ", copyright, "* teaser", "* preview", "excerpt from",
cast of characters, timeline, "other titles"); the synthetic
acknowledgements TOC resolves it, and absent matching labels it is
undefined. -/
theorem C3_parseTocItems_amended :
    (∀ (items : List TocItemX) (pt : ParsedToc) (after : TocItemX),
        parseTocItems items = some pt →
        pt.afterLastPageTocItem = some after →
        ∃ i0 j : Nat, i0 < j ∧ items.get? i0 = some pt.firstPageTocItem ∧
          items.get? j = some after ∧ tocPredicate after = true ∧
          ∀ k, k < j → k ≠ i0 → ∀ y, items.get? k = some y →
            tocPredicate y = false) ∧
      (∀ (t1 : String) (p2 total : Nat), 1 ≤ total → 19 * total ≤ 20 * p2 →
        parseTocItems
            [{ title := t1, page := some 1, total := total },
              { title := "Acknowledgements", page := some p2, total := total }] =
          some
            { firstPageTocItem := { title := t1, page := some 1, total := total }
              afterLastPageTocItem :=
                some { title := "Acknowledgements", page := some p2, total := total } }) ∧
      (∀ (items : List TocItemX) (pt : ParsedToc),
        (∀ it ∈ items, isBackMatterTitle it.title = false) →
        parseTocItems items = some pt → pt.afterLastPageTocItem = none) := by
  refine ⟨?_, ?_, ?_⟩
  · intro items pt after hpt hafter
    unfold parseTocItems at hpt
    cases hf1 : (items.enum.find? (fun p => p.2.page.isSome)) with
    | none => rw [hf1] at hpt; exact absurd hpt (by simp)
    | some v =>
      obtain ⟨i0, first⟩ := v
      rw [hf1] at hpt
      simp only [Option.some.injEq] at hpt
      subst hpt
      simp only at hafter
      obtain ⟨⟨j, x⟩, hf2, hx⟩ := Option.map_eq_some'.mp hafter
      simp only at hx
      subst hx
      obtain ⟨_, hget1, hfx1, hmin1⟩ :=
        enumFrom_find?_spec (fun p => p.2.page.isSome) items 0 i0 first hf1
      obtain ⟨_, hget2, hfx2, hmin2⟩ :=
        enumFrom_find?_spec (fun p => (p.1 != i0) && tocPredicate p.2) items 0 j x hf2
      simp only [Nat.sub_zero] at hget1 hget2 hmin1 hmin2
      simp only [Bool.and_eq_true, bne_iff_ne, ne_eq] at hfx2
      obtain ⟨hji0, hpred⟩ := hfx2
      have hij : i0 < j := by
        rcases Nat.lt_or_ge i0 j with h | h
        · exact h
        · exfalso
          have hjlt : j < i0 := by omega
          have := hmin1 j (by omega) hjlt x hget2
          unfold tocPredicate at hpred
          cases hpx : x.page with
          | none => rw [hpx] at hpred; simp at hpred
          | some p => simp [hpx] at this
      refine ⟨i0, j, hij, hget1, hget2, hpred, ?_⟩
      intro k hk hknei0 y hy
      have := hmin2 k (by omega) hk y hy
      simp only [Bool.and_eq_false_iff, bne_eq_false_iff_eq] at this
      rcases this with h | h
      · exact absurd h hknei0
      · exact h
  · intro t1 p2 total htot h95
    have h9 : 9 * total ≤ 10 * p2 := by omega
    have hb : isBackMatterTitle "Acknowledgements" = true := by decide
    simp [parseTocItems, List.enum, List.enumFrom, List.find?, tocPredicate, h9, hb]
  · intro items pt hnone hpt
    unfold parseTocItems at hpt
    cases hf1 : (items.enum.find? (fun p => p.2.page.isSome)) with
    | none => rw [hf1] at hpt; exact absurd hpt (by simp)
    | some v =>
      obtain ⟨i0, first⟩ := v
      rw [hf1] at hpt
      simp only [Option.some.injEq] at hpt
      subst hpt
      simp only
      have : (items.enum.find? (fun p => (p.1 != i0) && tocPredicate p.2)) = none := by
        rw [List.find?_eq_none]
        intro p hp
        have hmem : p.2 ∈ items := snd_mem_of_mem_enumFrom items 0 p hp
        simp [tocPredicate_false_of_title p.2 (hnone p.2 hmem)]
      simp [this]

/-- Witness for C3's amended claim at concrete inputs. -/
theorem C3_parseTocItems_amended_witness :
    parseTocItems
        [{ title := "Title Page", page := some 1, total := 20 },
          { title := "Acknowledgements", page := some 19, total := 20 }] =
      some
        { firstPageTocItem := { title := "Title Page", page := some 1, total := 20 }
          afterLastPageTocItem :=
            some { title := "Acknowledgements", page := some 19, total := 20 } } :=
  C3_parseTocItems_amended.2.1 "Title Page" 19 20 (by decide) (by decide)

/-! ## Page traversal loop (`src/extract-kindle-book.ts:741-978`)

The loop is embedded as a step function `loopIter` over an explicit state
(`pages`, `__lastCapturedPage`, `__stagnantCount`, `__iterations`) and one
record of Reading-Surface observations per iteration (`IterObs`).  The inner
navigation-retry `do/while` (lines 916-963) is `innerRetryGo` with one
`RetryObs` per retry pass; its only effect on the outer loop is the final
`retries` value.  `runLoopGo` drives the loop with explicit fuel, returning
the state and whether the loop exited (`__reachedEnd` / `break`). -/

/-- JS `String.padStart(w, c)`. -/
def padStart (s : String) (w : Nat) (c : Char) : String :=
  ⟨List.replicate (w - s.data.length) c ++ s.data⟩

/-- Screenshot file name `<index>-<page>.png`, both numbers padded
(`extract-kindle-book.ts:816-822`). -/
def screenshotName (padW idx pg : Nat) : String :=
  padStart ⟨natDigits idx⟩ padW '0' ++ "-" ++ padStart ⟨natDigits pg⟩ padW '0' ++ ".png"

/-- A captured page (`PageChunk` of `types.ts`). -/
structure PageChunkX where
  index : Nat
  page : Nat
  total : Nat
  screenshot : String
deriving DecidableEq, Repr

/-- The loop's persistent trackers (`pages`, `__lastCapturedPage`,
`__stagnantCount`, `__iterations`). -/
structure LoopState where
  pages : List PageChunkX
  lastCapturedPage : Option Nat
  stagnantCount : Nat
  iterations : Nat
deriving DecidableEq, Repr

/-- Reading-Surface observations for one pass of the inner retry loop. -/
structure RetryObs where
  chevronVisible : Bool
  stuckAdvanced : Bool
  navNow : Option PageNav
deriving DecidableEq, Repr

/-- Reading-Surface observations for one iteration of the outer loop. -/
structure IterObs where
  nav : Option PageNav
  src : Option String
  dupAdvanced : Bool
  dupReNav : Option PageNav
  endState : Bool
  chevronVisible : Bool
  retryObs : Nat → RetryObs
  navAfter : Option PageNav

/-- Embedding of the navigation retry `do/while`
(`extract-kindle-book.ts:912-963`): returns the final `retries` value.
The fuel equals `maxRetries = 20`, which bounds the loop by construction.
The `retries = maxRetries; break` escape fires when the chevron is missing,
the fallback ladder fails and the book is at its last or penultimate page. -/
def innerRetryGo (pg total totalContentPages : Nat) (robs : Nat → RetryObs) :
    Nat → Nat → Nat
  | 0, retries => retries
  | fuel + 1, retries =>
    let o := robs retries
    if retries % 3 == 0 && !o.chevronVisible && !o.stuckAdvanced &&
        decide (total - pg ≤ 1) then
      20
    else if (match o.navNow with
        | some nv =>
          match nv.page with
          | some p => (p != 0) && (p != pg)
          | none => false
        | none => false) then
      retries
    else if totalContentPages ≤ pg then
      retries
    else if retries + 1 < 20 then
      innerRetryGo pg total totalContentPages robs fuel (retries + 1)
    else
      retries + 1

def innerRetry (pg total totalContentPages : Nat) (robs : Nat → RetryObs) : Nat :=
  innerRetryGo pg total totalContentPages robs 20 0

inductive StepResult where
  | exitLoop (s : LoopState)
  | continueLoop (s : LoopState)
deriving DecidableEq, Repr

/-- Classification of a loop iteration after the capture has been appended
(`extract-kindle-book.ts:842-977`): `pages1` is the capture list including
the fresh capture, `stagnant1` the updated stagnation counter and
`iterations0` the not-yet-incremented iteration counter. -/
def loopIterAfterCapture (totalContentPages padW : Nat) (o : IterObs)
    (nav : PageNav) (pg : Nat) (iterations0 : Nat) (pages1 : List PageChunkX)
    (stagnant1 : Nat) : StepResult :=
  -- lines 842-846: stagnation exit (before the iteration counter)
  if 2 ≤ stagnant1 then .exitLoop ⟨pages1, some pg, stagnant1, iterations0⟩
  else
    -- lines 849-854: hard iteration cap
    if totalContentPages * 2 < iterations0 + 1 then
      .exitLoop ⟨pages1, some pg, stagnant1, iterations0 + 1⟩
    -- lines 863-893: end-state heuristic with one final capture
    else if o.endState then
      .exitLoop
        ⟨pages1 ++ [⟨pages1.length, min (pg + 1) nav.total, nav.total,
          screenshotName padW pages1.length (min (pg + 1) nav.total)⟩],
          some pg, stagnant1, iterations0 + 1⟩
    -- lines 894-904: penultimate page with no next control
    else if !o.chevronVisible && max 1 (nav.total - 1) ≤ pg then
      .exitLoop ⟨pages1, some pg, stagnant1, iterations0 + 1⟩
    -- lines 906-910: final target page captured
    else if totalContentPages ≤ pg then
      .exitLoop ⟨pages1, some pg, stagnant1, iterations0 + 1⟩
    else
      -- lines 912-969: retry ladder, then lines 971-977 final guard
      if 20 ≤ innerRetry pg nav.total totalContentPages o.retryObs then
        .exitLoop ⟨pages1, some pg, stagnant1, iterations0 + 1⟩
      else
        match o.navAfter.bind PageNav.page with
        | none => .exitLoop ⟨pages1, some pg, stagnant1, iterations0 + 1⟩
        | some ap =>
          if ap == pg || totalContentPages ≤ ap then
            .exitLoop ⟨pages1, some pg, stagnant1, iterations0 + 1⟩
          else .continueLoop ⟨pages1, some pg, stagnant1, iterations0 + 1⟩

/-- One iteration of the `while (!__reachedEnd)` loop
(`src/extract-kindle-book.ts:751-978`). -/
def loopIter (totalContentPages padW : Nat) (s : LoopState) (o : IterObs) :
    StepResult :=
  match o.nav with
  | none => .exitLoop s
  | some nav =>
    match nav.page with
    | none => .exitLoop s
    | some pg =>
      if totalContentPages < pg then .exitLoop s
      else
        -- lines 766-782: duplicate page detected, try to advance, and if the
        -- re-sampled footer page changed, `continue` without capturing
        if (match s.pages.getLast? with
            | some prev => prev.page == pg
            | none => false) &&
            o.dupAdvanced && ((o.dupReNav.bind PageNav.page) != some pg) then
          .continueLoop s
        else
          -- lines 784-831: capture and append, lines 833-839: stagnation
          loopIterAfterCapture totalContentPages padW o nav pg s.iterations
            (s.pages ++
              [⟨s.pages.length, pg, nav.total, screenshotName padW s.pages.length pg⟩])
            (if s.lastCapturedPage == some pg then s.stagnantCount + 1 else 0)

/-- Fuel-driven driver of the loop; the `Bool` is whether the loop exited
(rather than running out of fuel). -/
def runLoopGo (totalContentPages padW : Nat) (obs : Nat → IterObs) :
    Nat → Nat → LoopState → LoopState × Bool
  | 0, _, s => (s, false)
  | fuel + 1, k, s =>
    match loopIter totalContentPages padW s (obs k) with
    | .exitLoop s2 => (s2, true)
    | .continueLoop s2 => runLoopGo totalContentPages padW obs fuel (k + 1) s2

def initLoopState : LoopState :=
  { pages := [], lastCapturedPage := none, stagnantCount := 0, iterations := 0 }

/-! ### C5: capture indices are exactly 0, 1, 2, … -/

/-- The index fields of a capture list are `0, 1, …, length-1` in order. -/
def indexSeq (l : List PageChunkX) : Prop :=
  l.map PageChunkX.index = List.range l.length

theorem indexSeq_append (l : List PageChunkX) (h : indexSeq l) (pg total : Nat)
    (shot : String) : indexSeq (l ++ [⟨l.length, pg, total, shot⟩]) := by
  unfold indexSeq at *
  simp [List.range_succ, h]

/-- The state carried by either outcome of a step. -/
def resultState : StepResult → LoopState
  | .exitLoop s => s
  | .continueLoop s => s

theorem loopIterAfterCapture_indexSeq (totalContentPages padW : Nat)
    (o : IterObs) (nav : PageNav) (pg iterations0 : Nat)
    (pages1 : List PageChunkX) (stagnant1 : Nat) (hp1 : indexSeq pages1) :
    indexSeq (resultState (loopIterAfterCapture totalContentPages padW o nav pg
      iterations0 pages1 stagnant1)).pages := by
  unfold loopIterAfterCapture
  repeat' split
  all_goals dsimp only [resultState]
  all_goals first
    | exact hp1
    | exact indexSeq_append pages1 hp1 _ _ _

theorem loopIter_indexSeq (totalContentPages padW : Nat) (s : LoopState)
    (o : IterObs) (h : indexSeq s.pages) :
    indexSeq (resultState (loopIter totalContentPages padW s o)).pages := by
  unfold loopIter
  repeat' split
  all_goals dsimp only [resultState]
  all_goals first
    | exact h
    | exact loopIterAfterCapture_indexSeq totalContentPages padW o _ _ _ _ _
        (indexSeq_append s.pages h _ _ _)

theorem runLoopGo_indexSeq (totalContentPages padW : Nat) (obs : Nat → IterObs) :
    ∀ (fuel k : Nat) (s : LoopState), indexSeq s.pages →
      indexSeq (runLoopGo totalContentPages padW obs fuel k s).1.pages := by
  intro fuel
  induction fuel with
  | zero => intro k s h; exact h
  | succ fuel ih =>
    intro k s h
    unfold runLoopGo
    have := loopIter_indexSeq totalContentPages padW s (obs k) h
    cases hstep : loopIter totalContentPages padW s (obs k) with
    | exitLoop s2 =>
      rw [hstep] at this
      exact this
    | continueLoop s2 =>
      rw [hstep] at this
      exact ih (k + 1) s2 this

/-- C5: every run of the traversal loop assigns capture indices
sequentially as the current capture count, so the `index` fields of the
produced `PageCapture` list are exactly `0, 1, 2, …` — strictly increasing,
never repeating, never skipping — for every Reading-Surface behaviour and
every fuel. -/
theorem C5_capture_indices_sequential :
    ∀ (totalContentPages padW : Nat) (obs : Nat → IterObs) (fuel : Nat),
      (runLoopGo totalContentPages padW obs fuel 0 initLoopState).1.pages.map
          PageChunkX.index =
        List.range
          (runLoopGo totalContentPages padW obs fuel 0 initLoopState).1.pages.length :=
  fun totalContentPages padW obs fuel =>
    runLoopGo_indexSeq totalContentPages padW obs fuel 0 initLoopState rfl

/-! ### C1: stagnation and the iteration cap -/

/-- An adversarial Reading Surface: the footer at the top of each iteration
always reads `page 1 of 10`, the duplicate-page advance fallback reports
success and the re-sampled footer reads page 2 (so the loop takes the
`continue` at `extract-kindle-book.ts:779`), and when a capture does happen
the retry ladder and final guard observe page 2 (so the loop continues). -/
def flapIterObs : IterObs :=
  { nav := some { page := some 1, total := 10 }
    src := some "src0"
    dupAdvanced := true
    dupReNav := some { page := some 2, total := 10 }
    endState := false
    chevronVisible := true
    retryObs := fun _ =>
      { chevronVisible := true, stuckAdvanced := false
        navNow := some { page := some 2, total := 10 } }
    navAfter := some { page := some 2, total := 10 } }

def flapObs : Nat → IterObs := fun _ => flapIterObs

/-- State after the first (and only) capture under `flapObs` with
`totalContentPages = 5`, `padW = 2`. -/
def flapState1 : LoopState :=
  { pages := [⟨0, 1, 10, screenshotName 2 0 1⟩]
    lastCapturedPage := some 1
    stagnantCount := 0
    iterations := 1 }

theorem flapObs_first_step :
    loopIter 5 2 initLoopState (flapObs 0) = .continueLoop flapState1 := by
  decide

theorem flapObs_fixpoint (k : Nat) :
    loopIter 5 2 flapState1 (flapObs k) = .continueLoop flapState1 :=
  (by decide : loopIter 5 2 flapState1 flapIterObs = .continueLoop flapState1)

theorem flapObs_never_exits_from (fuel : Nat) :
    ∀ k : Nat, (runLoopGo 5 2 flapObs fuel k flapState1).2 = false := by
  induction fuel with
  | zero => intro k; rfl
  | succ fuel ih =>
    intro k
    unfold runLoopGo
    rw [flapObs_fixpoint k]
    exact ih (k + 1)

/-- A frozen Reading Surface: render identity and footer never change
(`page 3 of 10` forever), no advance ever succeeds. -/
def frozenObs : Nat → IterObs := fun _ =>
  { nav := some { page := some 3, total := 10 }
    src := some "src0"
    dupAdvanced := false
    dupReNav := none
    endState := false
    chevronVisible := true
    retryObs := fun _ =>
      { chevronVisible := true, stuckAdvanced := false
        navNow := some { page := some 3, total := 10 } }
    navAfter := some { page := some 3, total := 10 } }

/-- C1 (code bug): the stagnation/cap machinery does not bound the total
number of loop iterations.  Under `flapObs` (`totalContentPages = 5`, so the
hard cap is `2 × 5 = 10`) the loop runs forever — for every fuel it has not
exited — because the duplicate-page `continue` path
(`extract-kindle-book.ts:779`) skips the `__iterations` counter and the
stagnation tracking, contradicting the code's own `Global safety: hard
iteration cap to prevent infinite loops`.  A genuinely frozen surface
(`frozenObs`) does terminate cleanly after its first capture, via the
retries-exhausted / final-guard path, before the stagnation counter ever
reaches 2. -/
theorem C1_iteration_cap_bypassed :
    (∀ fuel : Nat, (runLoopGo 5 2 flapObs fuel 0 initLoopState).2 = false) ∧
      (runLoopGo 5 2 frozenObs 5 0 initLoopState).2 = true ∧
      (runLoopGo 5 2 frozenObs 5 0 initLoopState).1.pages.length = 1 := by
  refine ⟨?_, by decide, by decide⟩
  intro fuel
  cases fuel with
  | zero => rfl
  | succ fuel =>
    unfold runLoopGo
    rw [flapObs_first_step]
    exact flapObs_never_exits_from fuel 1

/-! ### C10: roman-numbered pages produce `location`, never `page`, and the
loop exits on a pageless footer -/

/-- C10: a footer in the roman notation `page <roman> of M` parses with the
decoded value in `location` and the `page` field unset, and the traversal
loop exits immediately (capturing nothing) whenever the footer parse is
`undefined` or has no `page` — so roman-numbered front matter is treated as
non-content. -/
theorem C10_roman_location_loop_exit :
    (∀ (rm : List Char) (t : Nat), rm ≠ [] → rm.all isRomanLetter = true →
        parsePageNav (romanFooterList rm t) =
          some { page := none, location := some (deromVal rm), total := t }) ∧
      (∀ (totalContentPages padW : Nat) (s : LoopState) (o : IterObs),
        o.nav = none → loopIter totalContentPages padW s o = .exitLoop s) ∧
      (∀ (totalContentPages padW : Nat) (s : LoopState) (o : IterObs)
        (nav : PageNav), o.nav = some nav → nav.page = none →
        loopIter totalContentPages padW s o = .exitLoop s) := by
  refine ⟨?_, ?_, ?_⟩
  · intro rm t hne hall
    exact parsePageNav_romanFooterList rm t hne hall
  · intro totalContentPages padW s o h
    unfold loopIter
    rw [h]
  · intro totalContentPages padW s o nav h1 h2
    unfold loopIter
    rw [h1]
    simp only [h2]

/-- Witness for C10: `page xiv of 20` yields `location = 14`, no `page`,
and the loop exits on that parse without capturing. -/
theorem C10_roman_location_loop_exit_witness :
    parsePageNav (romanFooterList ['x', 'i', 'v'] 20) =
        some { page := none, location := some 14, total := 20 } ∧
      loopIter 5 2 initLoopState
          { nav := some { page := none, location := some 14, total := 20 }
            src := none, dupAdvanced := false, dupReNav := none
            endState := false, chevronVisible := true
            retryObs := fun _ => { chevronVisible := true, stuckAdvanced := false, navNow := none }
            navAfter := none } =
        .exitLoop initLoopState := by
  constructor
  · have := C10_roman_location_loop_exit.1 ['x', 'i', 'v'] 20 (by decide) (by decide)
    rw [this]
    have hval : deromVal ['x', 'i', 'v'] = 14 := by decide
    rw [hval]
  · exact C10_roman_location_loop_exit.2.2 5 2 initLoopState _ _ rfl rfl

/-! ## Chapter stitching (`src/export-book-markdown.ts:62-86`,
`src/export-book-pdf.ts:69-102`)

Both exporters run the same loop over adjacent TOC pairs with a running
chunk index; the markdown exporter additionally reflows newlines into blank
lines (`.replaceAll('\n', '\n\n')`). -/

/-- A transcribed chunk (`ContentChunk` of `types.ts`). -/
structure ContentChunkX where
  index : Nat
  page : Nat
  text : String
  screenshot : String
deriving DecidableEq, Repr

/-- The TOC entry fields read by the stitching loops (the field is named
`label` in `export-book-markdown.ts` and `title` in `export-book-pdf.ts`,
per the two `TocItem` variants in `types.ts`). -/
structure ChapTocItem where
  label : String
  page : Option Nat := none
deriving DecidableEq, Repr

/-- JS `Array.findIndex`: first index satisfying the predicate, `-1` if
none. -/
def findIndexJS {α : Type} (p : α → Bool) (l : List α) : Int :=
  match l.findIdx? p with
  | some i => (i : Int)
  | none => -1

/-- JS `Array.slice(s, e)` for `0 ≤ s ≤ e`. -/
def jsSlice {α : Type} (l : List α) (s e : Nat) : List α :=
  (l.drop s).take (e - s)

/-- JS `.replaceAll('\n', '\n\n')`. -/
def reflowNewlines (s : String) : String :=
  ⟨s.data.flatMap (fun c => if c = '\n' then ['\n', '\n'] else [c])⟩

/-- Embedding of the chapter loop of `export-book-markdown.ts:62-86`:
`index` is the running chunk index, and the result is the list of emitted
(TOC entry, chapter text) pairs. -/
def stitchMarkdownGo (content : List ContentChunkX) :
    List ChapTocItem → Nat → List (ChapTocItem × String)
  | a :: b :: rest, index =>
    if a.page.isSome then
      -- `nextTocItem.page ? content.findIndex(...) : content.length`
      -- (JS truthiness: page 0 takes the `content.length` branch)
      let nextIndex : Int :=
        match b.page with
        | some p =>
          if p ≠ 0 then findIndexJS (fun c => p ≤ c.page) content
          else (content.length : Int)
        | none => (content.length : Int)
      if nextIndex < (index : Int) then stitchMarkdownGo content (b :: rest) index
      else
        (a, reflowNewlines (String.intercalate " "
            ((jsSlice content index nextIndex.toNat).map ContentChunkX.text))) ::
          stitchMarkdownGo content (b :: rest) nextIndex.toNat
    else stitchMarkdownGo content (b :: rest) index
  | _, _ => []

/-- Embedding of the chapter loop of `export-book-pdf.ts:69-102`: identical
to the markdown loop except that the chunk texts are joined with single
spaces without the newline reflow. -/
def stitchPdfGo (content : List ContentChunkX) :
    List ChapTocItem → Nat → List (ChapTocItem × String)
  | a :: b :: rest, index =>
    if a.page.isSome then
      let nextIndex : Int :=
        match b.page with
        | some p =>
          if p ≠ 0 then findIndexJS (fun c => p ≤ c.page) content
          else (content.length : Int)
        | none => (content.length : Int)
      if nextIndex < (index : Int) then stitchPdfGo content (b :: rest) index
      else
        (a, String.intercalate " "
            ((jsSlice content index nextIndex.toNat).map ContentChunkX.text)) ::
          stitchPdfGo content (b :: rest) nextIndex.toNat
    else stitchPdfGo content (b :: rest) index
  | _, _ => []

/-- Next-index computation in the words of the claim as originally stated:
the position of the first chunk whose page is `≥ entry[i+1].page`, or
end-of-array when `entry[i+1]` has no page (no special case for page 0;
`none` when no chunk qualifies). -/
def claimNextIndex (content : List ContentChunkX) (b : ChapTocItem) : Option Nat :=
  match b.page with
  | some p => content.findIdx? (fun c => p ≤ c.page)
  | none => some content.length

/-- The Chapter Stitcher as the claim literally states it (used only to
exhibit the counterexample). -/
def stitchClaim (content : List ContentChunkX) :
    List ChapTocItem → Nat → List (ChapTocItem × String)
  | a :: b :: rest, cur =>
    if a.page.isSome then
      match claimNextIndex content b with
      | none => stitchClaim content (b :: rest) cur
      | some nx =>
        if nx < cur then stitchClaim content (b :: rest) cur
        else
          (a, reflowNewlines (String.intercalate " "
              (((content.take nx).drop cur).map ContentChunkX.text))) ::
            stitchClaim content (b :: rest) nx
    else stitchClaim content (b :: rest) cur
  | _, _ => []

/-- Next-index computation in the words of the amended claim: end-of-array
also when `entry[i+1].page` is 0 (JS truthiness). -/
def specNextIndex (content : List ContentChunkX) (b : ChapTocItem) : Option Nat :=
  match b.page with
  | some p =>
    if p ≠ 0 then content.findIdx? (fun c => p ≤ c.page) else some content.length
  | none => some content.length

/-- The Chapter Stitcher in the words of the amended claim: for each
adjacent pair with `entry[i].page` defined, compute `specNextIndex`; skip
the pair when no chunk qualifies or `nextIndex < currentIndex`; otherwise
emit the chunks in `[currentIndex, nextIndex)` joined with single spaces
(reflowed for the markdown exporter) and advance `currentIndex`. -/
def stitchSpec (reflow : Bool) (content : List ContentChunkX) :
    List ChapTocItem → Nat → List (ChapTocItem × String)
  | a :: b :: rest, cur =>
    if a.page.isSome then
      match specNextIndex content b with
      | none => stitchSpec reflow content (b :: rest) cur
      | some nx =>
        if nx < cur then stitchSpec reflow content (b :: rest) cur
        else
          (a,
            (fun t => if reflow then reflowNewlines t else t)
              (String.intercalate " "
                (((content.take nx).drop cur).map ContentChunkX.text))) ::
            stitchSpec reflow content (b :: rest) nx
    else stitchSpec reflow content (b :: rest) cur
  | _, _ => []

theorem jsSlice_eq_take_drop {α : Type} (l : List α) (s e : Nat) :
    jsSlice l s e = (l.take e).drop s :=
  (List.drop_take e s l).symm

theorem stitch_step_match (content : List ContentChunkX) (b : ChapTocItem) :
    (match b.page with
      | some p =>
        if p ≠ 0 then findIndexJS (fun c => p ≤ c.page) content
        else (content.length : Int)
      | none => (content.length : Int)) =
      (match specNextIndex content b with
        | none => -1
        | some nx => (nx : Int)) := by
  cases hbp : b.page with
  | none => simp [specNextIndex, hbp]
  | some p =>
    by_cases hp0 : p = 0
    · subst hp0
      simp [specNextIndex, hbp]
    · simp only [specNextIndex, hbp, if_pos hp0, ne_eq, hp0, not_false_eq_true, if_true]
      cases hfi : content.findIdx? (fun c => p ≤ c.page) with
      | none => simp [findIndexJS, hfi]
      | some i => simp [findIndexJS, hfi]

theorem stitchMarkdown_eq_spec (content : List ContentChunkX) :
    ∀ (toc : List ChapTocItem) (cur : Nat),
      stitchMarkdownGo content toc cur = stitchSpec true content toc cur := by
  intro toc
  induction toc with
  | nil => intro cur; rfl
  | cons a tail ih =>
    intro cur
    cases tail with
    | nil => rfl
    | cons b rest =>
      simp only [stitchMarkdownGo, stitchSpec]
      by_cases hap : a.page.isSome
      · simp only [hap, if_true]
        rw [stitch_step_match]
        cases hnx : specNextIndex content b with
        | none =>
          have hneg : (-1 : Int) < (cur : Int) := by omega
          simp only [hneg, if_true, ih]
        | some nx =>
          simp only
          by_cases hlt : nx < cur
          · have h1 : (nx : Int) < (cur : Int) := by exact_mod_cast hlt
            simp only [h1, if_true, hlt, if_true, ih]
          · have h1 : ¬ ((nx : Int) < (cur : Int)) := by exact_mod_cast hlt
            simp only [h1, if_false, hlt, if_false, ih, jsSlice_eq_take_drop,
              Int.toNat_ofNat]
            try simp
      · simp only [Bool.not_eq_true] at hap
        simp [hap, ih]

theorem stitchPdf_eq_spec (content : List ContentChunkX) :
    ∀ (toc : List ChapTocItem) (cur : Nat),
      stitchPdfGo content toc cur = stitchSpec false content toc cur := by
  intro toc
  induction toc with
  | nil => intro cur; rfl
  | cons a tail ih =>
    intro cur
    cases tail with
    | nil => rfl
    | cons b rest =>
      simp only [stitchPdfGo, stitchSpec]
      by_cases hap : a.page.isSome
      · simp only [hap, if_true]
        rw [stitch_step_match]
        cases hnx : specNextIndex content b with
        | none =>
          have hneg : (-1 : Int) < (cur : Int) := by omega
          simp only [hneg, if_true, ih]
        | some nx =>
          simp only
          by_cases hlt : nx < cur
          · have h1 : (nx : Int) < (cur : Int) := by exact_mod_cast hlt
            simp only [h1, if_true, hlt, if_true, ih]
          · have h1 : ¬ ((nx : Int) < (cur : Int)) := by exact_mod_cast hlt
            simp only [h1, if_false, hlt, if_false, ih, jsSlice_eq_take_drop,
              Int.toNat_ofNat]
            try simp
      · simp only [Bool.not_eq_true] at hap
        simp [hap, ih]

/-- C6 counterexample: with `entry[i+1].page = 0`, the claim's formula
(`nextIndex` = first chunk with page ≥ 0, i.e. 0) yields an empty chapter,
but the code's JS truthiness test (`nextTocItem.page ?`) takes the
`content.length` branch and emits the whole chunk list. -/
theorem C6_stitcher_counterexample :
    stitchMarkdownGo [⟨0, 5, "hello", "shot"⟩]
        [{ label := "A", page := some 1 }, { label := "Z", page := some 0 }] 0 =
      [({ label := "A", page := some 1 }, "hello")] ∧
    stitchClaim [⟨0, 5, "hello", "shot"⟩]
        [{ label := "A", page := some 1 }, { label := "Z", page := some 0 }] 0 =
      [({ label := "A", page := some 1 }, "")] ∧
    stitchMarkdownGo [⟨0, 5, "hello", "shot"⟩]
        [{ label := "A", page := some 1 }, { label := "Z", page := some 0 }] 0 ≠
    stitchClaim [⟨0, 5, "hello", "shot"⟩]
        [{ label := "A", page := some 1 }, { label := "Z", page := some 0 }] 0 :=
  ⟨by decide, by decide, by decide⟩

/-- C6 (amended): for each adjacent TOC pair where `entry[i]` has a defined
page, `nextIndex` is the position of the first chunk whose page is
`≥ entry[i+1].page`, or end-of-array when `entry[i+1]` has no page or page
0 (JS truthiness); the pair is skipped as a non-fatal no-op when no chunk
qualifies or `nextIndex < currentIndex`; the chapter text is the chunks in
`[currentIndex, nextIndex)` joined with single spaces, and the markdown
exporter (not the PDF exporter) additionally turns each newline into a
blank line. -/
theorem C6_stitcher_amended :
    (∀ (content : List ContentChunkX) (toc : List ChapTocItem) (cur : Nat),
        stitchMarkdownGo content toc cur = stitchSpec true content toc cur) ∧
      (∀ (content : List ContentChunkX) (toc : List ChapTocItem) (cur : Nat),
        stitchPdfGo content toc cur = stitchSpec false content toc cur) :=
  ⟨fun content toc cur => stitchMarkdown_eq_spec content toc cur,
    fun content toc cur => stitchPdf_eq_spec content toc cur⟩

/-! ## Transcription (`src/transcribe-book-content.ts:89-232`)

The per-page retry loop is embedded as `transcribeGo`, driven by a `model`
function giving the raw model output for each attempt.  The normalization
chain (`transcribe-book-content.ts:178-182`)

  `.replace(/^\s*\d+\s*$\n+/m, '').replaceAll(/^\s*/gm, '').replaceAll(/\s*$/gm, '')`

is embedded by `replaceP1`, `stripLead` and `stripTrail`; each models the
JS regex semantics (multiline anchors; `\s` can consume newlines, so the
latter two also collapse blank lines). -/

/-- Position of the last `'\n'` in a list, if any. -/
def lastNewlinePos (w : List Char) : Option Nat :=
  (w.reverse.findIdx? (fun c => c == '\n')).map (fun k => w.length - 1 - k)

/-- Match of `/^\s*\d+\s*$\n+/` at a line-start position: leading
whitespace, a digit run, then (greedily backtracking `\s*$`) everything up
to and including the last newline of the following whitespace run.
Returns the match length. -/
def p1MatchAt (l : List Char) : Option Nat :=
  let w1 := l.takeWhile isJsWs
  let r1 := l.dropWhile isJsWs
  let ds := r1.takeWhile jsDigit
  let r2 := r1.dropWhile jsDigit
  if ds.isEmpty then none
  else
    match lastNewlinePos (r2.takeWhile isJsWs) with
    | none => none
    | some q => some (w1.length + ds.length + q + 1)

/-- `.replace(/^\s*\d+\s*$\n+/m, '')`: remove the first match, scanning
line starts left to right. -/
def replaceP1Go : Nat → List Char → List Char
  | 0, l => l
  | fuel + 1, l =>
    match p1MatchAt l with
    | some n => l.drop n
    | none =>
      match l.dropWhile (fun c => c != '\n') with
      | [] => l
      | _ :: rest2 => l.takeWhile (fun c => c != '\n') ++ '\n' :: replaceP1Go fuel rest2

def replaceP1 (l : List Char) : List Char :=
  replaceP1Go l.length l

/-- `.replaceAll(/^\s*/gm, '')`: at every line start remove the maximal
whitespace run (which may span newlines, collapsing blank lines). -/
def stripLeadGo : Nat → List Char → List Char
  | 0, l => l
  | fuel + 1, l =>
    let r := l.dropWhile isJsWs
    match r.dropWhile (fun c => c != '\n') with
    | [] => r.takeWhile (fun c => c != '\n')
    | _ :: rest2 => r.takeWhile (fun c => c != '\n') ++ '\n' :: stripLeadGo fuel rest2

def stripLead (l : List Char) : List Char :=
  stripLeadGo l.length l

/-- `.replaceAll(/\s*$/gm, '')`: in every maximal whitespace run, remove
the part before its last newline (the backtracking `\s*` stops at a `$`
position), and remove a run at the end of the string entirely. -/
def stripTrailGo : Nat → List Char → List Char
  | 0, l => l
  | fuel + 1, l =>
    match l with
    | [] => []
    | c :: _ =>
      if isJsWs c then
        match l.dropWhile isJsWs with
        | [] => []
        | rest =>
          (match lastNewlinePos (l.takeWhile isJsWs) with
            | none => l.takeWhile isJsWs
            | some q => (l.takeWhile isJsWs).drop q) ++ stripTrailGo fuel rest
      else
        l.takeWhile (fun d => !isJsWs d) ++ stripTrailGo fuel (l.dropWhile (fun d => !isJsWs d))

def stripTrail (l : List Char) : List Char :=
  stripTrailGo l.length l

/-- The normalization chain of `transcribe-book-content.ts:178-182`. -/
def normalizeText (s : String) : String :=
  ⟨stripTrail (stripLead (replaceP1 s.data))⟩

/-- The refusal pattern `/i'm sorry/i` as characters (39 is the
apostrophe). -/
def refusalPat : List Char :=
  ['i', Char.ofNat 39, 'm', ' ', 's', 'o', 'r', 'r', 'y']

/-- Refusal classification (`transcribe-book-content.ts:187`):
`text.length < 100 && /i'm sorry/i.test(text)`.  String length is
code points here; JS counts UTF-16 units, which agrees on non-astral
text. -/
def isRefusal (t : String) : Bool :=
  decide (t.data.length < 100) && hasCI refusalPat t.data

/-- Sampling parameters of one attempt: `temperature: retries < 2 ? 0 : 0.5`
and the escalated system instruction appended when `retries > 2`
(`transcribe-book-content.ts:119,125`). -/
structure TranscribeReq where
  temperature : ℚ
  escalated : Bool
deriving DecidableEq, Repr

def requestOfRetries (retries : Nat) : TranscribeReq :=
  { temperature := if retries < 2 then 0 else 1 / 2
    escalated := decide (2 < retries) }

/-! ### The TOC-label echo strip
(`transcribe-book-content.ts:204-214`)

The code builds `new RegExp('^' + tocItem.label + '\\s*', 'i')` with the
label interpolated unescaped.  The fragment actually exercised by book
labels is modelled: literal characters, `.` (any character) and `?`
(previous literal optional).  Labels outside this fragment (escapes,
groups, alternation, repetition, a leading quantifier) are not modelled:
`labelToks` returns `none` and the embedding leaves the text unchanged;
every theorem about stripping therefore carries a `labelToks … = some _`
hypothesis. -/

inductive Tok where
  | lit (c : Char)
  | opt (c : Char)
  | anyc
deriving DecidableEq, Repr

/-- Regex syntax characters that are not part of the modelled fragment. -/
def regexMeta (c : Char) : Bool :=
  c == Char.ofNat 94 || c == Char.ofNat 36 || c == Char.ofNat 92 ||
    c == Char.ofNat 42 || c == Char.ofNat 43 || c == Char.ofNat 40 ||
    c == Char.ofNat 41 || c == Char.ofNat 91 || c == Char.ofNat 93 ||
    c == Char.ofNat 123 || c == Char.ofNat 125 || c == Char.ofNat 124

/-- Compile a label to pattern tokens: a `?` makes the previous literal
optional, `.` matches any character, other non-meta characters are (`i`-flag)
literals. -/
def labelToks : List Char → Option (List Tok)
  | [] => some []
  | [c] =>
    if regexMeta c || c == '?' then none
    else some [if c == '.' then Tok.anyc else Tok.lit c]
  | c :: d :: rest =>
    if regexMeta c || c == '?' then none
    else if d == '?' then
      if c == '.' then none
      else (labelToks rest).map (Tok.opt c :: ·)
    else
      (labelToks (d :: rest)).map ((if c == '.' then Tok.anyc else Tok.lit c) :: ·)

/-- JS regex line terminators (what `.` does not match). -/
def isLineTerm (c : Char) : Bool :=
  c.toNat == 10 || c.toNat == 13 || c.toNat == 0x2028 || c.toNat == 0x2029

/-- Anchored match of a token pattern (greedy `?` with backtracking);
returns the rest of the input after the match. -/
def matchToks : List Tok → List Char → Option (List Char)
  | [], l => some l
  | Tok.lit _ :: _, [] => none
  | Tok.lit c :: ts, x :: xs => if lowEq c x then matchToks ts xs else none
  | Tok.anyc :: _, [] => none
  | Tok.anyc :: ts, x :: xs => if isLineTerm x then none else matchToks ts xs
  | Tok.opt _ :: ts, [] => matchToks ts []
  | Tok.opt c :: ts, x :: xs =>
    if lowEq c x then
      match matchToks ts xs with
      | some r => some r
      | none => matchToks ts (x :: xs)
    else matchToks ts (x :: xs)

/-- `text.replace(new RegExp('^' + label + '\\s*', 'i'), '')`. -/
def stripEcho (lbl text : String) : String :=
  match labelToks lbl.data with
  | none => text
  | some ts =>
    match matchToks ts text.data with
    | none => text
    | some rest => ⟨rest.dropWhile isJsWs⟩

/-- TOC entry as read by the transcription stage (`label` variant of
`TocItem` in `types.ts`). -/
structure TTocItem where
  label : String
  page : Option Nat := none
  location : Option Int := none
  total : Nat
deriving DecidableEq, Repr

/-- The `pageToTocItemMap` reduce (`transcribe-book-content.ts:26-34`):
entries with a page are keyed by page, later entries overwriting earlier
ones; the lookup returns the label. -/
def pageToTocLabel (toc : List TTocItem) (pg : Nat) : Option String :=
  toc.foldl
    (fun acc item =>
      match item.page with
      | some p => if p == pg then some item.label else acc
      | none => acc)
    none

/-- Outcome of the per-page retry loop: an emitted chunk, the fatal
`Model refused too many times` error, or out of fuel (the loop still
running — it has no bound of its own for empty outputs). -/
inductive TOutcome where
  | ok (c : ContentChunkX)
  | refusalError (t : String)
  | fuelOut
deriving DecidableEq, Repr

/-- Emission of a successful chunk (`transcribe-book-content.ts:204-224`):
the TOC-label echo strip applies when a previous capture exists on a
different page and a TOC entry starts at this page. -/
def finishChunk (pc : PageChunkX) (prevPage : Option Nat)
    (tocLabel : Nat → Option String) (text : String) : ContentChunkX :=
  let text2 :=
    match prevPage with
    | some pp =>
      if pp ≠ pc.page then
        match tocLabel pc.page with
        | some lbl => stripEcho lbl text
        | none => text
      else text
    | none => text
  { index := pc.index, page := pc.page, text := text2, screenshot := pc.screenshot }

/-- Embedding of the `do { … } while (true)` retry loop
(`transcribe-book-content.ts:109-225`): `model` gives the raw output of
each attempt, `retries` counts completed attempts (`++retries` happens
before classification), `maxRetries = 20`.  An empty normalized output is
retried with no cap; a refusal (`isRefusal`) is retried until
`retries >= maxRetries`, then the fatal error is raised; anything else is
emitted via `finishChunk`. -/
def transcribeGo (model : Nat → TranscribeReq → String) (pc : PageChunkX)
    (prevPage : Option Nat) (tocLabel : Nat → Option String) :
    Nat → Nat → TOutcome
  | 0, _ => .fuelOut
  | fuel + 1, retries =>
    if normalizeText (model retries (requestOfRetries retries)) = "" then
      transcribeGo model pc prevPage tocLabel fuel (retries + 1)
    else if isRefusal (normalizeText (model retries (requestOfRetries retries))) then
      if 20 ≤ retries + 1 then
        .refusalError (normalizeText (model retries (requestOfRetries retries)))
      else transcribeGo model pc prevPage tocLabel fuel (retries + 1)
    else .ok (finishChunk pc prevPage tocLabel
      (normalizeText (model retries (requestOfRetries retries))))

/-- The stage's page map (`pMap(metadata.pages, …)` at
`transcribe-book-content.ts:89-232`): every page is processed; a per-page
error is caught, logged and the page dropped (`filter(Boolean)`). -/
def runTranscribeStage (metadataPages : List PageChunkX) (toc : List TTocItem)
    (model : Nat → Nat → TranscribeReq → String) (fuel : Nat) :
    List (Option ContentChunkX) :=
  metadataPages.mapIdx (fun i pc =>
    match transcribeGo (model i) pc
        (if i = 0 then none else (metadataPages.get? (i - 1)).map PageChunkX.page)
        (pageToTocLabel toc) fuel 0 with
    | .ok c => some c
    | _ => none)

/-- The set of pages the transcription stage attempts: all of
`metadata.pages`.  The prior outputs and force flag are parameters only to
express what the claim asks about: the source
(`transcribe-book-content.ts:89-232`) contains no cache lookup and no
FORCE flag, so neither influences the result. -/
def attemptedPages (metadataPages : List PageChunkX)
    (existingOutputs : List (Nat × Nat)) (force : Bool) : List PageChunkX :=
  metadataPages

/-! ### Lemmas on the retry loop -/

theorem isRefusal_ne_empty (t : String) (h : isRefusal t = true) : ¬ t = "" := by
  intro he
  subst he
  exact absurd h (by decide)

theorem transcribeGo_ok_source (model : Nat → TranscribeReq → String)
    (pc : PageChunkX) (pp : Option Nat) (tl : Nat → Option String) :
    ∀ (fuel retries : Nat) (c : ContentChunkX),
      transcribeGo model pc pp tl fuel retries = .ok c →
      ∃ r, retries ≤ r ∧ normalizeText (model r (requestOfRetries r)) ≠ "" ∧
        isRefusal (normalizeText (model r (requestOfRetries r))) = false ∧
        c = finishChunk pc pp tl (normalizeText (model r (requestOfRetries r))) := by
  intro fuel
  induction fuel with
  | zero => intro retries c h; exact absurd h (by simp [transcribeGo])
  | succ fuel ih =>
    intro retries c h
    unfold transcribeGo at h
    split at h
    · obtain ⟨r, hr, h2⟩ := ih _ _ h
      exact ⟨r, by omega, h2⟩
    · rename_i hne
      split at h
      · rename_i href
        split at h
        · exact absurd h (by simp)
        · obtain ⟨r, hr, h2⟩ := ih _ _ h
          exact ⟨r, by omega, h2⟩
      · rename_i href
        refine ⟨retries, Nat.le_refl _, hne, by simpa using href, ?_⟩
        simp only [TOutcome.ok.injEq] at h
        exact h.symm

theorem transcribeGo_refusal_step (model : Nat → TranscribeReq → String)
    (pc : PageChunkX) (pp : Option Nat) (tl : Nat → Option String)
    (fuel retries : Nat)
    (href : isRefusal (normalizeText (model retries (requestOfRetries retries))) = true)
    (hlt : retries + 1 < 20) :
    transcribeGo model pc pp tl (fuel + 1) retries =
      transcribeGo model pc pp tl fuel (retries + 1) := by
  unfold transcribeGo
  rw [if_neg (isRefusal_ne_empty _ href), if_pos href, if_neg (by omega),
    transcribeGo.eq_def]

theorem transcribeGo_refusal_exhaust (model : Nat → TranscribeReq → String)
    (pc : PageChunkX) (pp : Option Nat) (tl : Nat → Option String)
    (hall : ∀ r, isRefusal (normalizeText (model r (requestOfRetries r))) = true) :
    ∀ (k retries : Nat), retries + k = 20 → 1 ≤ k →
      transcribeGo model pc pp tl k retries =
        .refusalError (normalizeText (model 19 (requestOfRetries 19))) := by
  intro k
  induction k with
  | zero => intro retries h20 h1; omega
  | succ k ih =>
    intro retries h20 h1
    unfold transcribeGo
    rw [if_neg (isRefusal_ne_empty _ (hall retries)), if_pos (hall retries)]
    by_cases hk : k = 0
    · subst hk
      have h19 : retries = 19 := by omega
      subst h19
      rw [if_pos (by omega)]
    · rw [if_neg (by omega)]
      exact ih (retries + 1) (by omega) (by omega)

theorem transcribeGo_empty_forever (model : Nat → TranscribeReq → String)
    (pc : PageChunkX) (pp : Option Nat) (tl : Nat → Option String)
    (hall : ∀ r, normalizeText (model r (requestOfRetries r)) = "") :
    ∀ (fuel retries : Nat), transcribeGo model pc pp tl fuel retries = .fuelOut := by
  intro fuel
  induction fuel with
  | zero => intro retries; rfl
  | succ fuel ih =>
    intro retries
    unfold transcribeGo
    rw [if_pos (hall retries)]
    exact ih (retries + 1)

/-! ### Literal labels: the intended behaviour of the echo strip -/

/-- Characters that the label-interpolation regex treats as plain literals:
no regex syntax character, no quantifier, no wildcard. -/
def isRegexLit (c : Char) : Bool :=
  !(regexMeta c) && !(c == '?') && !(c == '.')

theorem labelToks_all_lit (l : List Char) (h : l.all isRegexLit = true) :
    labelToks l = some (l.map Tok.lit) := by
  induction l with
  | nil => rfl
  | cons c tail ih =>
    rw [List.all_cons, Bool.and_eq_true] at h
    obtain ⟨hc, htail⟩ := h
    rw [isRegexLit, Bool.and_eq_true, Bool.and_eq_true] at hc
    obtain ⟨⟨hm, hq⟩, hd⟩ := hc
    rw [Bool.not_eq_true'] at hm hq hd
    cases tail with
    | nil => simp [labelToks, hm, hq, hd]
    | cons d rest =>
      have hdq : (d == '?') = false := by
        rw [List.all_cons, Bool.and_eq_true] at htail
        have := htail.1
        rw [isRegexLit, Bool.and_eq_true, Bool.and_eq_true] at this
        simp only [Bool.not_eq_true'] at this
        exact this.1.2
      simp [labelToks, hm, hq, hd, hdq, ih htail]

theorem matchToks_map_lit (pat : List Char) :
    ∀ l, matchToks (pat.map Tok.lit) l = litCI pat l := by
  induction pat with
  | nil => intro l; rfl
  | cons p ps ih =>
    intro l
    cases l with
    | nil => rfl
    | cons c cs =>
      show (if lowEq p c then matchToks (ps.map Tok.lit) cs else none) = _
      rw [litCI, ih]

/-- What the spec sentence describes: remove a leading case-insensitive
occurrence of the label itself (treated as plain text), plus following
whitespace. -/
def stripEchoLiteral (lbl text : String) : String :=
  match litCI lbl.data text.data with
  | some rest => ⟨rest.dropWhile isJsWs⟩
  | none => text

theorem stripEcho_literal (lbl text : String)
    (h : lbl.data.all isRegexLit = true) :
    stripEcho lbl text = stripEchoLiteral lbl text := by
  unfold stripEcho stripEchoLiteral
  rw [labelToks_all_lit _ h]
  simp only [matchToks_map_lit]
  cases litCI lbl.data text.data <;> rfl

/-- Short apologetic model output used to exercise the refusal path. -/
def refusalSample : String :=
  ⟨['I', Char.ofNat 39, 'm', ' ', 's', 'o', 'r', 'r', 'y', '.']⟩

/-- Claim C2, counterexample.  The retry loop emits an empty-text chunk as
success: on the Copyright page the model echoes exactly the TOC label
"Copyright", the echo strip removes all of it, and the emptiness check ran
before the strip, so the chunk is emitted with empty text.  Moreover an
always-empty model output is retried forever (the `if (!text) continue`
branch has no cap), so no fatal error is ever raised for persistent empty
outputs. -/
theorem C2_transcription_counterexample :
    (transcribeGo (fun _ _ => "Copyright") ⟨7, 19, 20, "shot"⟩ (some 18)
        (pageToTocLabel [⟨"Copyright", some 19, none, 20⟩]) 1 0 =
      .ok ⟨7, 19, "", "shot"⟩) ∧
    (normalizeText "Copyright" = "Copyright" ∧ ("Copyright" : String) ≠ "") ∧
    (∀ fuel retries,
      transcribeGo (fun _ _ => "") ⟨7, 19, 20, "shot"⟩ (some 18)
        (fun _ => none) fuel retries = .fuelOut) := by
  refine ⟨by decide, ⟨by decide, by decide⟩, fun fuel retries => ?_⟩
  exact transcribeGo_empty_forever _ _ _ _ (fun r => by decide) fuel retries

/-- Claim C2, amended.  The retry loop (maxRetries = 20 ≥ 8): (a) a refusal
with retries remaining is retried, the next attempt using the request for
the incremented retry counter; (b) temperature rises from the third attempt
(retries = 2) while the escalated instruction only arrives on the fourth
(retries = 3); (c) a model that always refuses exhausts the 20 attempts and
raises the fatal refusal error, never substituting placeholder text; (d) a
model whose normalized output is always empty is retried forever, with no
fatal error (the fuelOut outcome for every fuel); (e) every successfully
emitted chunk comes from a nonempty, non-refusal normalized output of some
attempt, passed through `finishChunk` (whose echo strip may still empty
it). -/
theorem C2_transcription_amended :
    (∀ (model : Nat → TranscribeReq → String) (pc : PageChunkX)
        (pp : Option Nat) (tl : Nat → Option String) (fuel retries : Nat),
        isRefusal (normalizeText (model retries (requestOfRetries retries))) = true →
        retries + 1 < 20 →
        transcribeGo model pc pp tl (fuel + 1) retries =
          transcribeGo model pc pp tl fuel (retries + 1)) ∧
    ((requestOfRetries 1).temperature = 0 ∧
      (requestOfRetries 2).temperature = 1 / 2 ∧
      (requestOfRetries 2).escalated = false ∧
      (requestOfRetries 3).escalated = true) ∧
    (∀ (model : Nat → TranscribeReq → String) (pc : PageChunkX)
        (pp : Option Nat) (tl : Nat → Option String),
        (∀ r, isRefusal (normalizeText (model r (requestOfRetries r))) = true) →
        transcribeGo model pc pp tl 20 0 =
          .refusalError (normalizeText (model 19 (requestOfRetries 19)))) ∧
    (∀ (model : Nat → TranscribeReq → String) (pc : PageChunkX)
        (pp : Option Nat) (tl : Nat → Option String),
        (∀ r, normalizeText (model r (requestOfRetries r)) = "") →
        ∀ fuel retries, transcribeGo model pc pp tl fuel retries = .fuelOut) ∧
    (∀ (model : Nat → TranscribeReq → String) (pc : PageChunkX)
        (pp : Option Nat) (tl : Nat → Option String) (fuel retries : Nat)
        (c : ContentChunkX),
        transcribeGo model pc pp tl fuel retries = .ok c →
        ∃ r, retries ≤ r ∧
          normalizeText (model r (requestOfRetries r)) ≠ "" ∧
          isRefusal (normalizeText (model r (requestOfRetries r))) = false ∧
          c = finishChunk pc pp tl (normalizeText (model r (requestOfRetries r)))) := by
  refine ⟨?_, ⟨by norm_num [requestOfRetries], by norm_num [requestOfRetries],
    by decide, by decide⟩, ?_, ?_, ?_⟩
  · intro model pc pp tl fuel retries href hlt
    exact transcribeGo_refusal_step model pc pp tl fuel retries href hlt
  · intro model pc pp tl hall
    exact transcribeGo_refusal_exhaust model pc pp tl hall 20 0 rfl (by omega)
  · intro model pc pp tl hall fuel retries
    exact transcribeGo_empty_forever model pc pp tl hall fuel retries
  · intro model pc pp tl fuel retries c h
    exact transcribeGo_ok_source model pc pp tl fuel retries c h

/-- Witness for C2: the amended theorem applied at concrete inputs — a
refusal step, a full refusal exhaustion, an always-empty model, and the
source of an emitted chunk. -/
theorem C2_transcription_amended_witness :
    (transcribeGo (fun _ _ => refusalSample) ⟨0, 1, 2, "s"⟩ none
        (fun _ => none) 6 3 =
      transcribeGo (fun _ _ => refusalSample) ⟨0, 1, 2, "s"⟩ none
        (fun _ => none) 5 4) ∧
    (transcribeGo (fun _ _ => refusalSample) ⟨0, 1, 2, "s"⟩ none
        (fun _ => none) 20 0 =
      .refusalError (normalizeText refusalSample)) ∧
    (transcribeGo (fun _ _ => "") ⟨0, 1, 2, "s"⟩ none
        (fun _ => none) 37 5 = .fuelOut) ∧
    (∃ r, 0 ≤ r ∧ normalizeText "Hello" ≠ "" ∧
      isRefusal (normalizeText "Hello") = false ∧
      (⟨0, 1, "Hello", "s"⟩ : ContentChunkX) =
        finishChunk ⟨0, 1, 2, "s"⟩ none (fun _ => none)
          (normalizeText "Hello")) := by
  refine ⟨C2_transcription_amended.1 _ _ _ _ 5 3 (by decide) (by omega),
    C2_transcription_amended.2.2.1 _ _ _ _ (fun r => by decide),
    C2_transcription_amended.2.2.2.1 _ _ _ _ (fun r => by decide) 37 5,
    C2_transcription_amended.2.2.2.2 (fun _ _ => "Hello") ⟨0, 1, 2, "s"⟩
      none (fun _ => none) 1 0 ⟨0, 1, "Hello", "s"⟩ (by decide)⟩

/-- Claim C8, counterexample.  The TOC label is interpolated into the
regex unescaped, so a label containing regex syntax does not strip its own
echo: with label "What?" the `?` makes the `t` optional, the match consumes
only "What" (then no whitespace), and the emitted text is "? Yes" instead
of the text with the label echo removed ("Yes"). -/
theorem C8_labelstrip_counterexample :
    (transcribeGo (fun _ _ => "What? Yes") ⟨3, 7, 20, "s"⟩ (some 6)
        (pageToTocLabel [⟨"What?", some 7, none, 20⟩]) 1 0 =
      .ok ⟨3, 7, "? Yes", "s"⟩) ∧
    (normalizeText "What? Yes" = "What? Yes") ∧
    (stripEchoLiteral "What?" "What? Yes" = "Yes") ∧
    ("? Yes" : String) ≠ "Yes" := by
  exact ⟨by decide, by decide, by decide, by decide⟩

/-- Claim C8, amended.  When the previous capture was on a different page,
a TOC entry starts exactly at this page, and the label contains no regex
syntax characters (no `?`, `.`, or metacharacter — the common case), every
emitted chunk carries the normalized model output of some attempt with a
leading case-insensitive occurrence of the label plus following whitespace
removed; for labels with regex syntax the strip can misbehave (see the
counterexample). -/
theorem C8_labelstrip_amended
    (model : Nat → TranscribeReq → String) (pc : PageChunkX) (q : Nat)
    (toc : List TTocItem) (lbl : String) (fuel retries : Nat)
    (c : ContentChunkX)
    (hq : q ≠ pc.page)
    (hlbl : pageToTocLabel toc pc.page = some lbl)
    (hlit : lbl.data.all isRegexLit = true)
    (h : transcribeGo model pc (some q) (pageToTocLabel toc) fuel retries = .ok c) :
    ∃ r, retries ≤ r ∧
      c.text = stripEchoLiteral lbl (normalizeText (model r (requestOfRetries r))) := by
  obtain ⟨r, hr, hne, href, hc⟩ :=
    transcribeGo_ok_source model pc (some q) (pageToTocLabel toc) fuel retries c h
  refine ⟨r, hr, ?_⟩
  subst hc
  simp [finishChunk, hq, hlbl, stripEcho_literal _ _ hlit]

/-- Witness for C8: the amended theorem applied to a page starting the TOC
entry "Chapter One" whose transcript opens with an upper-case echo of the
label. -/
theorem C8_labelstrip_amended_witness :
    ((4 : Nat) ≠ 5) ∧
    (pageToTocLabel [⟨"Chapter One", some 5, none, 20⟩] 5 = some "Chapter One") ∧
    ("Chapter One".data.all isRegexLit = true) ∧
    (transcribeGo (fun _ _ => "CHAPTER ONE In the beginning") ⟨2, 5, 20, "s"⟩
        (some 4) (pageToTocLabel [⟨"Chapter One", some 5, none, 20⟩]) 1 0 =
      .ok ⟨2, 5, "In the beginning", "s"⟩) ∧
    (∃ r, 0 ≤ r ∧ ("In the beginning" : String) =
      stripEchoLiteral "Chapter One" (normalizeText "CHAPTER ONE In the beginning")) := by
  refine ⟨by decide, by decide, by decide, by decide, ?_⟩
  exact C8_labelstrip_amended (fun _ _ => "CHAPTER ONE In the beginning")
    ⟨2, 5, 20, "s"⟩ 4 [⟨"Chapter One", some 5, none, 20⟩] "Chapter One" 1 0
    ⟨2, 5, "In the beginning", "s"⟩ (by decide) (by decide) (by decide) (by decide)

/-- Claim C7, counterexample.  The transcription stage has no resume
logic: with an existing output for the (index, page) pair (0, 5) and no
force flag, the page is attempted anyway. -/
theorem C7_resume_counterexample :
    ((0, 5) ∈ [((0 : Nat), (5 : Nat))]) ∧
    attemptedPages [⟨0, 5, 10, "s"⟩] [(0, 5)] false = [⟨0, 5, 10, "s"⟩] := by
  exact ⟨by decide, rfl⟩

/-- Claim C7, amended.  The transcription stage is not resumable: it
attempts every page of `metadata.pages` regardless of previously existing
outputs or any force flag (the source contains no cache lookup), and the
stage always processes exactly one slot per metadata page. -/
theorem C7_resume_amended :
    (∀ (pages : List PageChunkX) (ex : List (Nat × Nat)) (force : Bool),
        attemptedPages pages ex force = pages) ∧
    (∀ (pages : List PageChunkX) (toc : List TTocItem)
        (model : Nat → Nat → TranscribeReq → String) (fuel : Nat),
        (runTranscribeStage pages toc model fuel).length = pages.length) := by
  refine ⟨fun _ _ _ => rfl, fun pages toc model fuel => ?_⟩
  simp [runTranscribeStage]
